import Mathlib

/-!
Verification of the relocate–verify–restore transaction engine of
`plex-dance.py` against its natural-language specification.

Conventions of the embedding:
* Raw Python strings are modelled as `List Char`; byte lengths use the
  standard UTF-8 size of each scalar value.
* Filesystem paths handled by `os.path` functions are modelled as lists of
  path segments (`List String`); `os.path.dirname` is `List.dropLast`,
  `os.path.basename` is the last segment, `os.path.join dir name` appends
  one segment.
* The filesystem is an association list from paths to nodes (directories
  and files carrying a content identifier) together with a static device
  assignment, and every operation of the script (`os.rename`,
  `os.makedirs`, `shutil.rmtree`, …) is an explicit function on that
  state.  Exceptions raised by the OS are modelled with `Option`.
-/

/-! ### PathResolver: `apply_path_mapping` (raw-string level)

`apply_path_mapping` in the source operates on raw Python strings with
`str.startswith` and `str.replace(old, new, 1)`.  We model strings as
`List Char` and `replace` with count 1 as replacement of the first
occurrence. -/

/-- Python `s.replace(old, new, 1)`: replace the first occurrence of `old`
in `s` by `new`; if `old` is empty this inserts `new` at the front, and if
`old` does not occur the string is returned unchanged. -/
def replaceFirst (s old new : List Char) : List Char :=
  if old.isPrefixOf s then new ++ s.drop old.length
  else
    match s with
    | [] => []
    | c :: rest => c :: replaceFirst rest old new

/-- The `--path-mapping` record: `local_root` is the local filesystem
prefix, `plex_root` the catalog-service prefix (string level). -/
structure StrMapping where
  local_root : List Char
  plex_root : List Char
deriving DecidableEq

/-- `apply_path_mapping` from the source (string level): if a mapping is
present and `path` starts with `plex_root`, replace the first occurrence of
`plex_root` by `local_root`, else return `path` unchanged. -/
def apply_path_mapping (path : List Char) (mapping : Option StrMapping) : List Char :=
  match mapping with
  | none => path
  | some m =>
      if m.plex_root.isPrefixOf path then replaceFirst path m.plex_root m.local_root
      else path

/-! ### Paths at segment level

All `os.path` manipulation in the script is modelled on segment lists:
`os.path.dirname` drops the last segment, `os.path.basename` is the last
segment, `os.path.join d n` appends one segment. -/

abbrev FsPath := List String

/-! ### VerificationOracle: `check_albums_removed_from_plex`

The external `plexapi` client is modelled by oracles: `connect` says
whether building the server handle and listing the section succeeds
(`except Exception` at the top of the function), `fetch` gives the outcome
of `music_library.fetchItem(id)` for one album id, and `legacyAlbumDirs`
lists the directory of the first track of every album the library reports
(the legacy full-scan branch).  In the source, `fetchItem` raising any
exception — a genuine not-found *or* a connection error — is caught by the
inner `except Exception: continue` and treated as the album being gone. -/

inductive FetchResult
  | found
  | notFound
  | connError
deriving DecidableEq

/-- `check_albums_removed_from_plex` from the source.  Returns
`(all_removed, still_visible_count)`.  A top-level failure returns
`(false, moved.length)`.  In fast mode a path is still visible iff some of
its ids fetches successfully; `notFound` and `connError` are
indistinguishable to the `except Exception: continue` handler. -/
def check_albums_removed_from_plex (connect : Bool) (fetch : Nat → FetchResult)
    (legacyAlbumDirs : List FsPath) (moved : List (FsPath × List Nat)) : Bool × Nat :=
  if connect then
    let stillVisible := moved.filter fun pr =>
      if pr.2.isEmpty then
        -- legacy mode: scan all albums, visible iff some album's first
        -- track directory equals the moved path
        legacyAlbumDirs.contains pr.1
      else
        -- fast mode: visible iff some id still fetches
        pr.2.any fun id => fetch id == FetchResult.found
    (stillVisible.length == 0, stillVisible.length)
  else
    (false, moved.length)

/-! ### VerificationOracle: the polling loop of `main` (Phase 2)

The loop `while elapsed_time < max_wait_time` polls the oracle, breaks as
soon as it reports every album gone, else sleeps `poll_interval = 5`
seconds (a literal in the source) and adds 5 to `elapsed_time`.  The
oracle is abstracted as `Nat → Bool` (the `all_removed` component of the
check at a given elapsed time).  Returns
`(number of polls, all_removed, final elapsed_time)`. -/
def pollLoopAux (oracle : Nat → Bool) (maxWait : Nat) : Nat → Nat → Nat × Bool × Nat
  | 0, elapsed => (0, false, elapsed)
  | fuel + 1, elapsed =>
      if elapsed < maxWait then
        if oracle elapsed then (1, true, elapsed)
        else
          let r := pollLoopAux oracle maxWait fuel (elapsed + 5)
          (r.1 + 1, r.2.1, r.2.2)
      else (0, false, elapsed)

/-- The polling loop; the fuel `maxWait - elapsed + 1` strictly exceeds the
number of iterations the guard `elapsed < maxWait` can admit (the interval
is the positive constant 5), so the fuel never runs out. -/
def pollLoop (oracle : Nat → Bool) (maxWait elapsed : Nat) : Nat × Bool × Nat :=
  pollLoopAux oracle maxWait (maxWait - elapsed + 1) elapsed

/-- After the loop, the source logs a timeout (not an error) exactly when
`elapsed_time >= max_wait_time and not all_removed`. -/
def pollTimedOut (maxWait : Nat) (r : Nat × Bool × Nat) : Bool :=
  decide (maxWait ≤ r.2.2) && !r.2.1

/-! ### Filesystem model

An association list from paths to nodes plus a static device assignment
(`st_dev` is a property of where a path lives, so it is modelled as a
total function of the path that renames do not alter).  Files carry a
content identifier so that claims about content surviving can be stated. -/

inductive FsNode
  | dir
  | file (id : Nat)
deriving DecidableEq

structure FS where
  nodes : List (FsPath × FsNode)
  dev : FsPath → Nat

/-- The node at a path, if any. -/
def FS.node (fs : FS) (p : FsPath) : Option FsNode :=
  (fs.nodes.find? (fun e => e.1 = p)).map Prod.snd

/-- `os.path.exists`. -/
def path_exists (fs : FS) (p : FsPath) : Bool :=
  (fs.node p).isSome

/-- `os.path.isdir`. -/
def path_isdir (fs : FS) (p : FsPath) : Bool :=
  fs.node p == some FsNode.dir

/-- `os.path.isfile`. -/
def path_isfile (fs : FS) (p : FsPath) : Bool :=
  match fs.node p with
  | some (FsNode.file _) => true
  | _ => false

/-- `os.listdir`: names of the immediate children of `d`, in the order the
nodes were recorded. -/
def listdir (fs : FS) (d : FsPath) : List String :=
  fs.nodes.filterMap fun e =>
    if e.1.length = d.length + 1 ∧ d.isPrefixOf e.1 then some (e.1.getLastD "") else none

/-- Python `name.startswith('.')` on a directory-entry name (hidden-file
test). -/
def startsWithDot (s : String) : Bool :=
  match s.data with
  | [] => false
  | c :: _ => c == '.'

/-- Whether some content id is present anywhere in the filesystem (used to
state that an entry's data survived). -/
def contentPresent (fs : FS) (id : Nat) : Bool :=
  fs.nodes.any fun e => e.2 == FsNode.file id

/-- Rebase path `r` from under `p` to under `q`. -/
def rebase (p q r : FsPath) : FsPath := q ++ r.drop p.length

/-- `os.rename p q`: succeeds iff the source exists, the parent of the
destination is a directory and nothing sits at the destination; the whole
subtree under `p` is rebased under `q`.  `none` models an `OSError`. -/
def osRename (fs : FS) (p q : FsPath) : Option FS :=
  if path_exists fs p ∧ path_isdir fs q.dropLast ∧ ¬ path_exists fs q then
    some { fs with
      nodes := fs.nodes.map fun e =>
        if p.isPrefixOf e.1 then (rebase p q e.1, e.2) else e }
  else none

/-- One `os.mkdir` step of `os.makedirs` (with `exist_ok=True`): an
existing directory is fine, an existing file at the path is an error. -/
def mkdirOne (fs : FS) (p : FsPath) : Option FS :=
  match fs.node p with
  | some FsNode.dir => some fs
  | some (FsNode.file _) => none
  | none => some { fs with nodes := fs.nodes ++ [(p, FsNode.dir)] }

/-- All ancestors of `p`, outermost first, ending with `p` itself. -/
def ancestorChain (p : FsPath) : List FsPath :=
  (List.range (p.length + 1)).map fun n => p.take n

def makedirsList : FS → List FsPath → Option FS
  | fs, [] => some fs
  | fs, q :: qs =>
      match mkdirOne fs q with
      | none => none
      | some fs1 => makedirsList fs1 qs

/-- `os.makedirs p exist_ok=True`. -/
def makedirs (fs : FS) (p : FsPath) : Option FS :=
  makedirsList fs (ancestorChain p)

/-- `shutil.rmtree`: removes the whole subtree rooted at `p`.  The model
lets it always succeed (the script's fallback branch for a failing
`rmtree` is therefore never taken in the model). -/
def rmtree (fs : FS) (p : FsPath) : FS :=
  { fs with nodes := fs.nodes.filter fun e => ¬ p.isPrefixOf e.1 }

/-- `os.rmdir`: removes `p` iff it is a directory with no children at all
(hidden children count). -/
def osRmdir (fs : FS) (p : FsPath) : Option FS :=
  if path_isdir fs p ∧ (listdir fs p).isEmpty then
    some { fs with nodes := fs.nodes.filter fun e => e.1 ≠ p }
  else none

/-- `os.remove`: removes a file. -/
def osRemove (fs : FS) (p : FsPath) : Option FS :=
  if path_isfile fs p then
    some { fs with nodes := fs.nodes.filter fun e => e.1 ≠ p }
  else none

/-- Writing a small bookkeeping file (`lock`, `restore.log`): creates or
overwrites the file node at `p`. -/
def writeFileNode (fs : FS) (p : FsPath) (id : Nat) : FS :=
  { fs with nodes := (fs.nodes.filter fun e => e.1 ≠ p) ++ [(p, FsNode.file id)] }

/-- `are_on_same_filesystem` from the source: walk `p2` up to its nearest
existing ancestor (failing with `false` at the root), then compare
`st_dev` of `p1` (which must exist, else the `os.stat` raises and the
`except OSError` returns `false`) with that ancestor's. -/
def findExistingAncestor (fs : FS) (p : FsPath) : Option FsPath :=
  go p.length p
where
  go : Nat → FsPath → Option FsPath
    | 0, p => if path_exists fs p then some p else none
    | fuel + 1, p =>
        if path_exists fs p then some p else go fuel p.dropLast

def are_on_same_filesystem (fs : FS) (p1 p2 : FsPath) : Bool :=
  match findExistingAncestor fs p2 with
  | none => false
  | some a => path_exists fs p1 && (fs.dev p1 == fs.dev a)

/-! ### Filesystem events

Each run-relevant filesystem action is recorded as an event, so that
temporal claims (recovery log written before renames, zero operations on a
second recovery invocation) can be stated over traces. -/

inductive FSEvent
  | renameAttempt (src dst : FsPath) (ok : Bool)
  | mkdirsFor (p : FsPath)
  | wroteLock (p : FsPath)
  | wroteRestoreLog (tempDir : FsPath) (entries : List (FsPath × FsPath))
  | removedTree (p : FsPath)
  | removedEmptyDir (p : FsPath)
deriving DecidableEq

def FSEvent.isRenameAttempt : FSEvent → Bool
  | FSEvent.renameAttempt _ _ _ => true
  | _ => false

def FSEvent.isRestoreLogWrite : FSEvent → Bool
  | FSEvent.wroteRestoreLog _ _ => true
  | _ => false

/-! ### MoveExecutor / RestoreExecutor: `move_file` and `restore_file` -/

/-- The AppleDouble companion path of `p`: sibling named `._basename`. -/
def appleDouble (p : FsPath) : FsPath :=
  p.dropLast ++ ["._" ++ p.getLastD ""]

/-- Best-effort rename of the AppleDouble companion, failures swallowed
(`except Exception: pass` in the source). -/
def moveAppleDouble (fs : FS) (src dst : FsPath) : FS × List FSEvent :=
  if path_exists fs (appleDouble src) then
    match osRename fs (appleDouble src) (appleDouble dst) with
    | some fs1 => (fs1, [FSEvent.renameAttempt (appleDouble src) (appleDouble dst) true])
    | none => (fs, [FSEvent.renameAttempt (appleDouble src) (appleDouble dst) false])
  else (fs, [])

/-- `move_file` from the source: check the source exists (else warn and
return `False`); `os.makedirs(os.path.dirname(temp_path), exist_ok=True)`;
check `are_on_same_filesystem` (else error message and `False`); atomic
`os.rename`; best-effort move of the AppleDouble companion.  Any raised
`OSError` is caught and yields `False`.  Returns
`(success, new filesystem, events)`. -/
def move_file (fs : FS) (orig temp : FsPath) : Bool × FS × List FSEvent :=
  if ¬ path_exists fs orig then (false, fs, [])
  else
    match makedirs fs temp.dropLast with
    | none => (false, fs, [])
    | some fs1 =>
        if ¬ are_on_same_filesystem fs1 orig temp then
          (false, fs1, [FSEvent.mkdirsFor temp.dropLast])
        else
          match osRename fs1 orig temp with
          | none =>
              (false, fs1, [FSEvent.mkdirsFor temp.dropLast,
                FSEvent.renameAttempt orig temp false])
          | some fs2 =>
              let ad := moveAppleDouble fs2 orig temp
              (true, ad.1, FSEvent.mkdirsFor temp.dropLast ::
                FSEvent.renameAttempt orig temp true :: ad.2)

/-- `restore_file` from the source: `os.makedirs` the original's parent,
atomic `os.rename` back, best-effort AppleDouble restore; any exception
yields `False`. -/
def restore_file (fs : FS) (temp orig : FsPath) : Bool × FS × List FSEvent :=
  match makedirs fs orig.dropLast with
  | none => (false, fs, [])
  | some fs1 =>
      match osRename fs1 temp orig with
      | none =>
          (false, fs1, [FSEvent.mkdirsFor orig.dropLast,
            FSEvent.renameAttempt temp orig false])
      | some fs2 =>
          let ad := moveAppleDouble fs2 temp orig
          (true, ad.1, FSEvent.mkdirsFor orig.dropLast ::
            FSEvent.renameAttempt temp orig true :: ad.2)

/-! ### CrashRecoveryHandler: `cleanup_and_restore`

The module-level globals `library_temp_dirs` (an insertion-ordered dict
`parent ↦ temp_dir`), `temp_paths` and `file_paths` are gathered in a
`Globals` record.  `cleanup_and_restore` returns the cleared globals, the
resulting filesystem and the list of filesystem operations it performed. -/

structure Globals where
  library_temp_dirs : List (FsPath × FsPath)
  temp_paths : List FsPath
  file_paths : List FsPath
deriving DecidableEq

/-- The `for i, tracked in enumerate(temp_paths)` search in the source:
the first index `i` with `temp_paths[i] == temp_path and i <
len(file_paths)` gives the restore target `file_paths[i]`; without such an
index the entry is only warned about. -/
def findRestoreTarget (temp_paths file_paths : List FsPath) (tp : FsPath) : Option FsPath :=
  (temp_paths.enum.find? fun e => e.2 = tp ∧ e.1 < file_paths.length).map
    fun e => file_paths.getD e.1 []

/-- Cleanup of one staging root: list the staging directory once, keep
non-hidden names other than `lock` and `restore.log`, rename each tracked
still-staged directory back to its tracked path (failures caught and only
logged), then `shutil.rmtree` the staging directory. -/
def cleanupRoot (tps fps : List FsPath) (acc : FS × List FSEvent) (temp_dir : FsPath) :
    FS × List FSEvent :=
  if ¬ path_exists acc.1 temp_dir then acc
  else
    let temp_files := listdir acc.1 temp_dir
    let album_dirs := temp_files.filter fun f =>
      ¬ startsWithDot f ∧ f ≠ "lock" ∧ f ≠ "restore.log"
    let step := album_dirs.foldl
      (fun (st : FS × List FSEvent) f =>
        let tp := temp_dir ++ [f]
        if path_isdir st.1 tp then
          match findRestoreTarget tps fps tp with
          | some orig =>
              match osRename st.1 tp orig with
              | some fs2 => (fs2, st.2 ++ [FSEvent.renameAttempt tp orig true])
              | none => (st.1, st.2 ++ [FSEvent.renameAttempt tp orig false])
          | none => st
        else st)
      acc
    (rmtree step.1 temp_dir, step.2 ++ [FSEvent.removedTree temp_dir])

/-- `cleanup_and_restore` from the source: a no-op if `library_temp_dirs`
is empty; otherwise it copies and clears `library_temp_dirs` first (the
one-shot take), then processes each staging root in order. -/
def cleanup_and_restore (g : Globals) (fs : FS) : Globals × FS × List FSEvent :=
  if g.library_temp_dirs.isEmpty then (g, fs, [])
  else
    let toClean := g.library_temp_dirs
    let g1 := { g with library_temp_dirs := [] }
    let r := toClean.foldl (fun acc e => cleanupRoot g.temp_paths g.file_paths acc e.2)
      (fs, [])
    (g1, r.1, r.2)

/-! ### TransactionPlanner: `truncate_utf8_safe` and `safe_temp_name`

Python strings are modelled as `List Char`; the UTF-8 byte length of a
string is the sum of the standard UTF-8 sizes of its scalar values.

`truncate_utf8_safe(text, max_bytes)` in the source encodes the text,
tries byte prefixes `encoded[:i]` for `i` from `max_bytes` down to 1 and
returns the first that decodes.  A byte prefix of valid UTF-8 decodes
exactly when it ends on a character boundary, so the loop returns the
longest character-level prefix whose encoding fits in `max_bytes` — and
finds none exactly when the first character alone is too large for the
budget, in which case the source falls back to
`''.join(c for c in text if ord(c) < 128)[:max_bytes]`.  `max_bytes` can
be negative at the call site (see `safe_temp_name`), so it is an `Int`:
the guard `len(...) <= max_bytes` and the loop both fail on a negative
budget and Python's negative slice `[:n]` drops `-n` characters from the
end. -/

/-- UTF-8 encoded size in bytes of one scalar value. -/
def utf8SizeOf (c : Char) : Nat :=
  if c.toNat < 0x80 then 1
  else if c.toNat < 0x800 then 2
  else if c.toNat < 0x10000 then 3
  else 4

/-- `len(s.encode('utf-8'))`. -/
def utf8Len (s : List Char) : Nat :=
  (s.map utf8SizeOf).sum

/-- Python slice `l[:n]` for possibly negative `n`. -/
def pySlice (l : List Char) (n : Int) : List Char :=
  if 0 ≤ n then l.take n.toNat else l.take (l.length - (-n).toNat)

/-- Longest character prefix whose UTF-8 encoding fits in `budget` bytes
(greedy take; sizes are positive so greedy is longest). -/
def takeUtf8 (l : List Char) (budget : Int) : List Char :=
  match l with
  | [] => []
  | c :: cs =>
      if (utf8SizeOf c : Int) ≤ budget then c :: takeUtf8 cs (budget - utf8SizeOf c)
      else []

/-- `truncate_utf8_safe` from the source, at character level (see the
section comment for the byte-level correspondence). -/
def truncate_utf8_safe (text : List Char) (maxBytes : Int) : List Char :=
  if (utf8Len text : Int) ≤ maxBytes then text
  else
    if (takeUtf8 text maxBytes).isEmpty then
      pySlice (text.filter fun c => c.toNat < 128) maxBytes
    else takeUtf8 text maxBytes

/-- The decimal digit characters used by Python's `str` of an `int`. -/
def digitChar (d : Nat) : Char :=
  ['0', '1', '2', '3', '4', '5', '6', '7', '8', '9'].getD d '0'

/-- Decimal representation of a natural number (recursion on the value;
used for proofs). -/
def decDigits (n : Nat) : List Char :=
  if _hn : n < 10 then [digitChar n]
  else decDigits (n / 10) ++ [digitChar (n % 10)]
termination_by n
decreasing_by exact Nat.div_lt_self (by omega) (by omega)

def decReprAux : Nat → Nat → List Char → List Char
  | 0, _, acc => acc
  | fuel + 1, n, acc =>
      if n < 10 then digitChar n :: acc
      else decReprAux fuel (n / 10) (digitChar (n % 10) :: acc)

/-- Decimal representation of a natural number, as `f"{index}"` produces
it (fuel-based so that it evaluates by kernel reduction; `decRepr_eq`
below identifies it with `decDigits`). -/
def decRepr (n : Nat) : List Char :=
  decReprAux (n + 1) n []

/-- The `safe_chars` lambda of `safe_temp_name`: keep alphanumerics (the
Unicode-aware `str.isalnum`, taken as a parameter) and `-ْ_. `, replace
everything else by `_`.  The characters `-`, `_`, `.` and space are the
literal safe set `'-_. '` of the source. -/
def safe_chars (isalnum : Char → Bool) (s : List Char) : List Char :=
  s.map fun c => if isalnum c || (c == '-' || c == '_' || c == '.' || c == ' ') then c else '_'

/-- `safe_temp_name` from the source.  `index` is the enumeration index,
`maxFilenameBytes` the byte ceiling (255 at every call site).  Integer
arithmetic follows Python: `//` is floor division (`Int.fdiv`), and
`remaining_bytes` can be negative when the index alone overflows the
ceiling. -/
def safe_temp_name (isalnum : Char → Bool) (index : Nat) (artist album : List Char)
    (maxFilenameBytes : Nat) : List Char :=
  let artist := safe_chars isalnum artist
  let album := safe_chars isalnum album
  let base_name := decRepr index ++ '_' :: artist ++ '_' :: album
  if utf8Len base_name ≤ maxFilenameBytes then base_name
  else
    let index_part := decRepr index ++ ['_']
    let remaining_bytes : Int := (maxFilenameBytes : Int) - (utf8Len index_part : Int) - 1
    let artist_bytes : Int := Int.fdiv remaining_bytes 2
    let album_bytes : Int := remaining_bytes - artist_bytes
    let artist_trunc := truncate_utf8_safe artist artist_bytes
    let album_trunc := truncate_utf8_safe album album_bytes
    decRepr index ++ '_' :: artist_trunc ++ '_' :: album_trunc

/-! ### The transaction pipeline of `main` (`--no-dry-run` path)

The CLI layer is abstracted into a `RunConfig`: the parsed input lines
(catalog path plus optional album ids), the optional path mapping, the
library locations reported by the catalog service (`none` models
`--skip-validation`, in which case Phase 2 is skipped as well), the
`--max-wait` bound, the verification verdict per elapsed second
(`oracle`, the `all_removed` component of
`check_albums_removed_from_plex` at that moment) and the Unicode
`str.isalnum` predicate used by `safe_temp_name`.

The mapping is applied at segment level here: the raw-string behaviour of
`apply_path_mapping` is the subject of `apply_path_mapping` above; on the
segment representation the guarded first-occurrence replacement is exactly
prefix substitution. -/

structure SegMapping where
  local_root : FsPath
  plex_root : FsPath
deriving DecidableEq

structure RunConfig where
  lines : List (FsPath × List Nat)
  mapping : Option SegMapping
  libraryLocations : Option (List FsPath)
  maxWait : Nat
  oracle : Nat → Bool
  isalnum : Char → Bool

/-- `apply_path_mapping` at segment level. -/
def applyMapSeg (mapping : Option SegMapping) (p : FsPath) : FsPath :=
  match mapping with
  | none => p
  | some m =>
      if m.plex_root.isPrefixOf p then m.local_root ++ p.drop m.plex_root.length
      else p

/-- The `library_root` computation of `main`: with validation on, the
first library location the catalog path starts with; fallback
`os.path.dirname(plex_path)`. -/
def libraryRootFor (cfg : RunConfig) (plex : FsPath) : FsPath :=
  match cfg.libraryLocations with
  | some locs =>
      match locs.find? (fun loc => loc.isPrefixOf plex) with
      | some loc => loc
      | none => plex.dropLast
  | none => plex.dropLast

/-- One `(local_path, temp_path, plex_path)` triple of `move_operations`. -/
structure MoveOp where
  localPath : FsPath
  tempPath : FsPath
  plexPath : FsPath
deriving DecidableEq

/-- State threaded through the planning loop (Phase 1 before any move):
filesystem, `library_temp_dirs`, `temp_paths`, `move_operations` and the
filesystem events so far. -/
structure PlanState where
  fs : FS
  dict : List (FsPath × FsPath)
  tempPaths : List FsPath
  ops : List MoveOp
  evs : List FSEvent

/-- A fatal abort (`sys.exit(1)` or an uncaught `OSError`): the state at
the moment of the abort, plus the `restore.log` path reported to the
operator, if one was reported. -/
structure AbortInfo where
  fs : FS
  dict : List (FsPath × FsPath)
  tempPaths : List FsPath
  evs : List FSEvent
  reportedRestoreLog : Option FsPath

/-- Second half of staging-root acquisition, once any pre-existing
directory has been dealt with: `are_on_same_filesystem` check (fatal on
failure), `os.makedirs`, lock-file write. -/
def acquireFresh (fs : FS) (localPath tempDir : FsPath) (evs : List FSEvent) :
    Except (Option FsPath) (FS × List FSEvent) :=
  if ¬ are_on_same_filesystem fs localPath tempDir then Except.error none
  else
    match makedirs fs tempDir with
    | none => Except.error none
    | some fs1 =>
        Except.ok (writeFileNode fs1 (tempDir ++ ["lock"]) 0,
          evs ++ [FSEvent.mkdirsFor tempDir, FSEvent.wroteLock (tempDir ++ ["lock"])])

/-- Staging-root acquisition (`main`, first visit of a library parent):
if the conventional staging directory already exists, list it ignoring
hidden names; when something non-hidden is left, abort reporting the
pre-existing `restore.log` if that file exists; when nothing non-hidden is
left, `os.rmdir` it (an `OSError` here — e.g. hidden files still inside —
is uncaught and also aborts).  Then the same-device check, `os.makedirs`
and the lock record. -/
def acquireStagingRoot (fs : FS) (localPath tempDir : FsPath) :
    Except (Option FsPath) (FS × List FSEvent) :=
  if path_exists fs tempDir then
    if ((listdir fs tempDir).filter fun f => ¬ startsWithDot f).isEmpty then
      match osRmdir fs tempDir with
      | some fs1 => acquireFresh fs1 localPath tempDir [FSEvent.removedEmptyDir tempDir]
      | none => Except.error none
    else
      Except.error (if path_exists fs (tempDir ++ ["restore.log"]) then
          some (tempDir ++ ["restore.log"])
        else none)
  else acquireFresh fs localPath tempDir []

/-- One iteration of the planning loop for entry `i` at catalog path
`plex`. -/
def planStep (cfg : RunConfig) (st : PlanState) (i : Nat) (plex : FsPath) :
    Except AbortInfo PlanState :=
  let localPath := applyMapSeg cfg.mapping plex
  let libraryRoot := libraryRootFor cfg plex
  let localLibraryRoot := applyMapSeg cfg.mapping libraryRoot
  let parent := localLibraryRoot.dropLast
  let next : Except AbortInfo (FS × List (FsPath × FsPath) × List FSEvent × FsPath) :=
    match st.dict.find? (fun e => e.1 = parent) with
    | some e => Except.ok (st.fs, st.dict, st.evs, e.2)
    | none =>
        let tempDir := parent ++ ["tmp.plexdance"]
        match acquireStagingRoot st.fs localPath tempDir with
        | Except.error rep =>
            Except.error ⟨st.fs, st.dict, st.tempPaths, st.evs, rep⟩
        | Except.ok r =>
            Except.ok (r.1, st.dict ++ [(parent, tempDir)], st.evs ++ r.2, tempDir)
  match next with
  | Except.error a => Except.error a
  | Except.ok (fs1, dict1, evs1, tempDir) =>
      let album_name := localPath.getLastD ""
      let artist_name := localPath.dropLast.getLastD ""
      let safe_name :=
        String.mk (safe_temp_name cfg.isalnum i artist_name.data album_name.data 255)
      let tempPath := tempDir ++ [safe_name]
      Except.ok ⟨fs1, dict1, st.tempPaths ++ [tempPath],
        st.ops ++ [⟨localPath, tempPath, plex⟩], evs1⟩

def planPhaseGo (cfg : RunConfig) : PlanState → Nat → List FsPath → Except AbortInfo PlanState
  | st, _, [] => Except.ok st
  | st, i, p :: ps =>
      match planStep cfg st i p with
      | Except.error a => Except.error a
      | Except.ok st1 => planPhaseGo cfg st1 (i + 1) ps

/-- Phase 1 planning: iterate the planning loop over all catalog paths. -/
def planPhase (cfg : RunConfig) (fs0 : FS) : Except AbortInfo PlanState :=
  planPhaseGo cfg ⟨fs0, [], [], [], []⟩ 0 (cfg.lines.map Prod.fst)

/-- The lines of one staging root's `restore.log`: the
`(temp_path, local_path)` of every planned operation whose staging path
starts with that root's staging directory, in planning order (the
`mv <temp> <local>` commands of the script). -/
def restoreLogEntries (ops : List MoveOp) (tempDir : FsPath) : List (FsPath × FsPath) :=
  (ops.filter fun op => tempDir.isPrefixOf op.tempPath).map fun op =>
    (op.tempPath, op.localPath)

/-- Writing every staging root's `restore.log`, after planning and before
any move. -/
def writeLogsPhase (dict : List (FsPath × FsPath)) (ops : List MoveOp) (fs : FS) :
    FS × List FSEvent :=
  dict.foldl
    (fun acc e =>
      (writeFileNode acc.1 (e.2 ++ ["restore.log"]) 0,
       acc.2 ++ [FSEvent.wroteRestoreLog e.2 (restoreLogEntries ops e.2)]))
    (fs, [])

/-- The sequential move loop; returns the filesystem, per-entry results
and events. -/
def movePhase (fs : FS) (ops : List MoveOp) : FS × List Bool × List FSEvent :=
  ops.foldl
    (fun acc op =>
      let r := move_file acc.1 op.localPath op.tempPath
      (r.2.1, acc.2.1 ++ [r.1], acc.2.2 ++ r.2.2))
    (fs, [], [])

/-- Phase 3 work list: `(temp_path, orig_path)` for every tracked entry
whose staging path still exists. -/
def restoreOpsOf (fs : FS) (filePaths tempPaths : List FsPath) : List (FsPath × FsPath) :=
  (filePaths.zip tempPaths).filterMap fun pr =>
    if path_exists fs pr.2 then some (pr.2, pr.1) else none

/-- The sequential restore loop. -/
def restorePhase (fs : FS) (ops : List (FsPath × FsPath)) : FS × List Bool × List FSEvent :=
  ops.foldl
    (fun acc op =>
      let r := restore_file acc.1 op.1 op.2
      (r.2.1, acc.2.1 ++ [r.1], acc.2.2 ++ r.2.2))
    (fs, [], [])

/-- Observable outcome of one process run.  `reported` is the
`restore.log` path printed for the operator on a conflict abort, if
any. -/
structure RunOutcome where
  fs : FS
  trace : List FSEvent
  exitCode : Nat
  pollCount : Nat
  timedOut : Bool
  reported : Option FsPath

/-- The recovery-log write events and the filesystem after them. -/
def postPlanLogs (st : PlanState) : FS × List FSEvent :=
  writeLogsPhase st.dict st.ops st.fs

/-- The move loop over the first `k` planned operations, starting after
the recovery logs are on disk. -/
def postPlanMovesUpTo (st : PlanState) (k : Nat) : FS × List Bool × List FSEvent :=
  movePhase (postPlanLogs st).1 (st.ops.take k)

/-- The full move loop. -/
def postPlanMoves (st : PlanState) : FS × List Bool × List FSEvent :=
  movePhase (postPlanLogs st).1 st.ops

/-- The restore loop of Phase 3. -/
def postPlanRestore (st : PlanState) : FS × List Bool × List FSEvent :=
  restorePhase (postPlanMoves st).1
    (restoreOpsOf (postPlanMoves st).1 (st.ops.map MoveOp.localPath) st.tempPaths)

/-- A fatal abort: `sys.exit(1)` unwinds, the `atexit`-registered
`cleanup_and_restore` runs on the globals as they stand (at abort time
`file_paths` still holds the raw input paths), and the process exits 1. -/
def finishAbort (cfg : RunConfig) (a : AbortInfo) : RunOutcome :=
  let g : Globals := ⟨a.dict, a.tempPaths, cfg.lines.map Prod.fst⟩
  let c := cleanup_and_restore g a.fs
  ⟨c.2.1, a.evs ++ c.2.2, 1, 0, false, a.reportedRestoreLog⟩

/-- Phases 1b–3 of a signal-free run, starting from a successful planning
state: write recovery logs, move, poll (unless validation is skipped),
restore, clear the globals (so the exit hook is a no-op).  When no move
succeeded the source returns early *without* clearing the globals, so the
exit hook performs the cleanup. -/
def runFromPlan (cfg : RunConfig) (st : PlanState) : RunOutcome :=
  if ((postPlanMoves st).2.1.filter (· = true)).length = 0 then
    let c := cleanup_and_restore ⟨st.dict, st.tempPaths, st.ops.map MoveOp.localPath⟩
      (postPlanMoves st).1
    ⟨c.2.1, st.evs ++ (postPlanLogs st).2 ++ (postPlanMoves st).2.2 ++ c.2.2, 0, 0,
      false, none⟩
  else
    let poll :=
      match cfg.libraryLocations with
      | some _ => pollLoop cfg.oracle cfg.maxWait 0
      | none => (0, false, 0)
    let timedOut :=
      match cfg.libraryLocations with
      | some _ => pollTimedOut cfg.maxWait poll
      | none => false
    ⟨(postPlanRestore st).1,
      st.evs ++ (postPlanLogs st).2 ++ (postPlanMoves st).2.2 ++ (postPlanRestore st).2.2,
      0, poll.1, timedOut, none⟩

/-- The full run without any signal. -/
def run (cfg : RunConfig) (fs0 : FS) : RunOutcome :=
  match planPhase cfg fs0 with
  | Except.error a => finishAbort cfg a
  | Except.ok st => runFromPlan cfg st

/-- A termination signal delivered after exactly `k` iterations of the
move loop: the signal handler runs `cleanup_and_restore` on the globals as
they stand — `library_temp_dirs` and `temp_paths` are fully populated by
planning, but `file_paths` is only replaced by the mapped local paths
*after* the whole move loop, so at this point it still holds the raw
input (catalog) paths — and the process exits 1. -/
def runSignalFromPlan (cfg : RunConfig) (st : PlanState) (k : Nat) : RunOutcome :=
  let c := cleanup_and_restore ⟨st.dict, st.tempPaths, cfg.lines.map Prod.fst⟩
    (postPlanMovesUpTo st k).1
  ⟨c.2.1, st.evs ++ (postPlanLogs st).2 ++ (postPlanMovesUpTo st k).2.2 ++ c.2.2, 1, 0,
    false, none⟩

def runWithSignalAfterMoves (cfg : RunConfig) (fs0 : FS) (k : Nat) : RunOutcome :=
  match planPhase cfg fs0 with
  | Except.error a => finishAbort cfg a
  | Except.ok st => runSignalFromPlan cfg st k

/-- Whether Phase 1 planning completed without a fatal abort. -/
def planSucceeded (cfg : RunConfig) (fs0 : FS) : Bool :=
  match planPhase cfg fs0 with
  | Except.ok _ => true
  | Except.error _ => false

/-- The planning state after a successful Phase 1 (the empty state when
planning aborted). -/
def planStateAfter (cfg : RunConfig) (fs0 : FS) : PlanState :=
  match planPhase cfg fs0 with
  | Except.ok st => st
  | Except.error _ => ⟨fs0, [], [], [], []⟩

/-- The number of successfully moved entries of the run (`successful_moves`
in the source). -/
def runStaged (cfg : RunConfig) (fs0 : FS) : Nat :=
  match planPhase cfg fs0 with
  | Except.ok st => ((postPlanMoves st).2.1.filter (· = true)).length
  | Except.error _ => 0

/-- The two pre-rename checks of `move_file` (source existence and the
same-device check after the staging parent has been created); `true` iff
at least one of them fails. -/
def moveFileChecksFail (fs : FS) (orig temp : FsPath) : Bool :=
  !path_exists fs orig ||
    (match makedirs fs temp.dropLast with
     | none => false
     | some fs1 => !are_on_same_filesystem fs1 orig temp)

/-! ### Concrete scenarios -/

/-- Everything on one device. -/
def devAll0 : FsPath → Nat := fun _ => 0

/-- Crash-recovery scenario for the `rmtree` behaviour: one staging root
holding one tracked staged album (content id 7) whose recorded restore
target `gone/Album` has no existing parent directory, so the rename back
fails. -/
def fsRmtree : FS :=
  { nodes := [([], FsNode.dir), (["tmp.plexdance"], FsNode.dir),
      (["tmp.plexdance", "0_a_Album"], FsNode.dir),
      (["tmp.plexdance", "0_a_Album", "t.flac"], FsNode.file 7),
      (["tmp.plexdance", "lock"], FsNode.file 0),
      (["tmp.plexdance", "restore.log"], FsNode.file 0)],
    dev := devAll0 }

def gRmtree : Globals :=
  { library_temp_dirs := [([], ["tmp.plexdance"])],
    temp_paths := [["tmp.plexdance", "0_a_Album"]],
    file_paths := [["gone", "Album"]] }

/-- Cross-device scenario: the `other` subtree is on device 1, the rest on
device 0. -/
def devSplit : FsPath → Nat := fun p => if p.headD "" = "other" then 1 else 0

def fsSplit : FS :=
  { nodes := [([], FsNode.dir), (["music"], FsNode.dir), (["music", "Album"], FsNode.dir),
      (["music", "Album", "t.flac"], FsNode.file 5), (["other"], FsNode.dir)],
    dev := devSplit }

/-- Signal scenario: three entries under one library parent, with a path
mapping from catalog namespace `p/…` to local namespace `l/…`; the `p`
side of the tree exists (as it would when the catalog namespace is also
reachable), which lets the wrong-namespace restore succeed visibly. -/
def cfgSignal : RunConfig :=
  { lines := [(["p", "A1", "B1"], []), (["p", "A2", "B2"], []), (["p", "A3", "B3"], [])],
    mapping := some ⟨["l"], ["p"]⟩,
    libraryLocations := none,
    maxWait := 300,
    oracle := fun _ => false,
    isalnum := Char.isAlphanum }

def fsSignal : FS :=
  { nodes := [([], FsNode.dir), (["l"], FsNode.dir),
      (["l", "A1"], FsNode.dir), (["l", "A1", "B1"], FsNode.dir),
      (["l", "A1", "B1", "t1.flac"], FsNode.file 1),
      (["l", "A2"], FsNode.dir), (["l", "A2", "B2"], FsNode.dir),
      (["l", "A2", "B2", "t2.flac"], FsNode.file 2),
      (["l", "A3"], FsNode.dir), (["l", "A3", "B3"], FsNode.dir),
      (["l", "A3", "B3", "t3.flac"], FsNode.file 3),
      (["p"], FsNode.dir), (["p", "A1"], FsNode.dir)],
    dev := devAll0 }

/-- One-entry happy-path configuration with validation on: library
location `lib`, no mapping, `--max-wait 10`. -/
def cfgOne (oracle : Nat → Bool) : RunConfig :=
  { lines := [(["lib", "A", "B"], [])],
    mapping := none,
    libraryLocations := some [["lib"]],
    maxWait := 10,
    oracle := oracle,
    isalnum := Char.isAlphanum }

def fsOne : FS :=
  { nodes := [([], FsNode.dir), (["lib"], FsNode.dir), (["lib", "A"], FsNode.dir),
      (["lib", "A", "B"], FsNode.dir), (["lib", "A", "B", "t.flac"], FsNode.file 9)],
    dev := devAll0 }

/-- Conflict scenario D: a staging directory from a previous run exists
with one leftover (non-hidden) entry plus its `restore.log`. -/
def fsConflict : FS :=
  { nodes := [([], FsNode.dir), (["lib"], FsNode.dir), (["lib", "A"], FsNode.dir),
      (["lib", "A", "B"], FsNode.dir), (["lib", "A", "B", "t.flac"], FsNode.file 9),
      (["tmp.plexdance"], FsNode.dir),
      (["tmp.plexdance", "junk"], FsNode.file 4),
      (["tmp.plexdance", "restore.log"], FsNode.file 0)],
    dev := devAll0 }

/-- Leftover-but-empty scenario: the staging directory exists with no
children at all. -/
def fsEmptyLeftover : FS :=
  { nodes := [([], FsNode.dir), (["lib"], FsNode.dir), (["lib", "A"], FsNode.dir),
      (["lib", "A", "B"], FsNode.dir), (["lib", "A", "B", "t.flac"], FsNode.file 9),
      (["tmp.plexdance"], FsNode.dir)],
    dev := devAll0 }

/-! ### Lemmas about the planning phase -/

/-- Events the planning phase may emit (no renames, no recovery-log
writes). -/
def isPlanEv : FSEvent → Bool
  | FSEvent.renameAttempt _ _ _ => false
  | FSEvent.wroteRestoreLog _ _ => false
  | _ => true

/-- The filesystem after `os.rmdir` removes the empty leftover staging
directory of `fsEmptyLeftover`. -/
def fsEmptyLeftoverRm : FS :=
  { nodes := [([], FsNode.dir), (["lib"], FsNode.dir), (["lib", "A"], FsNode.dir),
      (["lib", "A", "B"], FsNode.dir), (["lib", "A", "B", "t.flac"], FsNode.file 9)],
    dev := devAll0 }

/-- The abort record planning produces on the `fsConflict` scenario. -/
def abortConflict : AbortInfo :=
  ⟨fsConflict, [], [], [], some ["tmp.plexdance", "restore.log"]⟩

/-! ### Lemmas for the staging-name computation -/

/-- Budgets computed by the truncation branch of `safe_temp_name` (the
locals `remaining_bytes`, `artist_bytes`, `album_bytes` of the source, for
the 255-byte ceiling). -/
def remainingBytes (index : Nat) : Int :=
  (255 : Int) - (utf8Len (decRepr index ++ ['_']) : Int) - 1

def artistBudget (index : Nat) : Int := Int.fdiv (remainingBytes index) 2

def albumBudget (index : Nat) : Int := remainingBytes index - artistBudget index

/-- Decimal value of a digit string (inverse of `decDigits`). -/
def digitsVal (l : List Char) : Nat :=
  l.foldl (fun a c => a * 10 + (c.toNat - 48)) 0

/-! ### Theorems -/

theorem replaceFirst_of_prefix (old new rest : List Char) :
    replaceFirst (old ++ rest) old new = new ++ rest := by
  rw [replaceFirst.eq_def]
  rw [if_pos (List.isPrefixOf_iff_prefix.mpr ⟨rest, rfl⟩), List.drop_left]

theorem apply_path_mapping_prefix_subst (m : StrMapping) (rest : List Char) :
    apply_path_mapping (m.plex_root ++ rest) (some m) = m.local_root ++ rest := by
  show (if m.plex_root.isPrefixOf (m.plex_root ++ rest) = true then
      replaceFirst (m.plex_root ++ rest) m.plex_root m.local_root
    else m.plex_root ++ rest) = m.local_root ++ rest
  rw [if_pos (List.isPrefixOf_iff_prefix.mpr ⟨rest, rfl⟩)]
  exact replaceFirst_of_prefix _ _ _

/-- C10: Path resolution is raw string-prefix substitution, not
path-segment-aware: whenever the character sequence of `path` begins with
the mapping's source root, the leading occurrence is replaced by the
destination root — even when the match boundary falls inside a path
segment.  Concretely, source root `/media/Music` rewrites
`/media/Music2/x` to `/dest2/x` (destination root `/dest` immediately
followed by `2/x`), a path in neither namespace. -/
theorem c10_path_mapping_raw_prefix_substitution :
    (∀ (m : StrMapping) (rest : List Char),
        apply_path_mapping (m.plex_root ++ rest) (some m) = m.local_root ++ rest) ∧
    apply_path_mapping "/media/Music2/x".data
        (some ⟨"/dest".data, "/media/Music".data⟩) = "/dest2/x".data ∧
    "/dest2/x".data = "/dest".data ++ "2/x".data := by
  refine ⟨apply_path_mapping_prefix_subst, ?_, by decide⟩
  have h : "/media/Music2/x".data = "/media/Music".data ++ "2/x".data := by decide
  rw [h]
  exact (apply_path_mapping_prefix_subst ⟨"/dest".data, "/media/Music".data⟩ "2/x".data).trans
    (by decide)

/-! ### Helper lemmas about the filesystem model -/

theorem node_some_of_find? {fs : FS} {q : FsPath} {n : FsNode}
    (h : fs.node q = some n) :
    ∃ e, fs.nodes.find? (fun e => e.1 = q) = some e ∧ e.2 = n := by
  unfold FS.node at h
  cases hf : fs.nodes.find? (fun e => e.1 = q) with
  | none => rw [hf] at h; simp at h
  | some e => rw [hf] at h; exact ⟨e, rfl, by simpa using h⟩

theorem mkdirOne_preserves {fs fs1 : FS} {p : FsPath}
    (h : mkdirOne fs p = some fs1) {q : FsPath} {n : FsNode}
    (hq : fs.node q = some n) : fs1.node q = some n := by
  unfold mkdirOne at h
  split at h
  · cases h; exact hq
  · cases h
  · cases h
    obtain ⟨e, he, he2⟩ := node_some_of_find? hq
    show ((fs.nodes ++ [(p, FsNode.dir)]).find? (fun e => e.1 = q)).map Prod.snd = some n
    rw [List.find?_append, he]
    simp [he2]

theorem makedirsList_preserves :
    ∀ (ps : List FsPath) (fs fs1 : FS), makedirsList fs ps = some fs1 →
      ∀ q n, fs.node q = some n → fs1.node q = some n := by
  intro ps
  induction ps with
  | nil =>
      intro fs fs1 h q n hq
      cases h
      exact hq
  | cons p ps ih =>
      intro fs fs1 h q n hq
      unfold makedirsList at h
      split at h
      · cases h
      · rename_i fsm hm
        exact ih _ _ h _ _ (mkdirOne_preserves hm hq)

theorem makedirs_preserves {fs fs1 : FS} {p : FsPath}
    (h : makedirs fs p = some fs1) {q : FsPath} {n : FsNode}
    (hq : fs.node q = some n) : fs1.node q = some n :=
  makedirsList_preserves _ _ _ h _ _ hq

theorem rmtree_node_none {fs : FS} {td q : FsPath} (h : td.isPrefixOf q = true) :
    (rmtree fs td).node q = none := by
  have hfind : (fs.nodes.filter fun e => ¬ td.isPrefixOf e.1).find? (fun e => e.1 = q)
      = none := by
    rw [List.find?_eq_none]
    intro x hx hxq
    rw [List.mem_filter] at hx
    rw [decide_eq_true_eq] at hxq
    have h2 := hx.2
    rw [decide_eq_true_eq] at h2
    exact h2 (by rw [hxq]; exact h)
  show ((fs.nodes.filter fun e => ¬ td.isPrefixOf e.1).find? (fun e => e.1 = q)).map
      Prod.snd = none
  rw [hfind]
  rfl

/-! ### Claim theorems: recovery and move safety -/

/-- C7: The crash-recovery routine is idempotent per process: invoking
`cleanup_and_restore` twice in immediate succession yields the same final
filesystem state as invoking it once, and the second invocation performs
zero filesystem operations (its event list is empty), because the first
invocation takes and clears `library_temp_dirs` before acting. -/
theorem c7_recovery_idempotent :
    ∀ (g : Globals) (fs : FS),
      cleanup_and_restore (cleanup_and_restore g fs).1 (cleanup_and_restore g fs).2.1 =
        ((cleanup_and_restore g fs).1, (cleanup_and_restore g fs).2.1, []) := by
  intro g fs
  by_cases h : g.library_temp_dirs.isEmpty
  · simp [cleanup_and_restore, h]
  · simp [cleanup_and_restore, h]

/-- C6: `move_file` performs the rename of the entry only when the source
exists and the same-device check succeeds: when either pre-rename check
fails, the call returns failure, no rename of the entry is attempted (no
rename event for `(orig, temp)` occurs), and every node of the original
filesystem — in particular the source entry and its whole subtree — is
still in place afterwards.  So an entry detected as crossing storage
devices is never renamed. -/
theorem c6_failed_checks_leave_source_untouched :
    ∀ (fs : FS) (orig temp : FsPath), moveFileChecksFail fs orig temp = true →
      (move_file fs orig temp).1 = false ∧
      (∀ ok, FSEvent.renameAttempt orig temp ok ∉ (move_file fs orig temp).2.2) ∧
      (∀ q n, fs.node q = some n → ((move_file fs orig temp).2.1).node q = some n) := by
  intro fs orig temp hfail
  unfold moveFileChecksFail at hfail
  by_cases hex : path_exists fs orig = true
  · rw [hex] at hfail
    simp only [Bool.not_true, Bool.false_or] at hfail
    cases hmk : makedirs fs temp.dropLast with
    | none =>
        rw [hmk] at hfail
        have hfail2 : (false : Bool) = true := hfail
        cases hfail2
    | some fs1 =>
        rw [hmk] at hfail
        have hfail2 : (!are_on_same_filesystem fs1 orig temp) = true := hfail
        have hsame : are_on_same_filesystem fs1 orig temp = false := by
          simpa using hfail2
        have hmove : move_file fs orig temp = (false, fs1, [FSEvent.mkdirsFor temp.dropLast]) := by
          unfold move_file
          rw [if_neg (by simp [hex]), hmk]
          simp [hsame]
        rw [hmove]
        refine ⟨rfl, ?_, ?_⟩
        · intro ok hmem
          simp at hmem
        · intro q n hq
          exact makedirs_preserves hmk hq
  · have hmove : move_file fs orig temp = (false, fs, []) := by
      unfold move_file
      rw [if_pos (by simpa using hex)]
    rw [hmove]
    exact ⟨rfl, fun ok hmem => by simp at hmem, fun q n hq => hq⟩

/-- Witness for C6: a concrete entry whose staging path is on another
device (`devSplit`) is reported failed, and the source directory is still
present untouched. -/
theorem c6_witness :
    moveFileChecksFail fsSplit ["music", "Album"] ["other", "tmp.plexdance", "0_m_Album"]
        = true ∧
    (move_file fsSplit ["music", "Album"] ["other", "tmp.plexdance", "0_m_Album"]).1
        = false ∧
    (move_file fsSplit ["music", "Album"]
        ["other", "tmp.plexdance", "0_m_Album"]).2.1.node ["music", "Album"]
      = some FsNode.dir :=
  ⟨by decide,
   (c6_failed_checks_leave_source_untouched fsSplit ["music", "Album"]
      ["other", "tmp.plexdance", "0_m_Album"] (by decide)).1,
   (c6_failed_checks_leave_source_untouched fsSplit ["music", "Album"]
      ["other", "tmp.plexdance", "0_m_Album"] (by decide)).2.2 ["music", "Album"]
      FsNode.dir (by decide)⟩

/-- C2 counterexample: concretely, the staging root of `fsRmtree` holds
one tracked staged album (content id 7) whose rename back to its recorded
path fails (the target's parent directory does not exist); the recovery
routine then `shutil.rmtree`s the staging directory, deleting the staged
entry's content — it is *not* still present for manual recovery, contrary
to the claim. -/
theorem c2_counterexample_rmtree_deletes_stuck_entry :
    contentPresent fsRmtree 7 = true ∧
    FSEvent.renameAttempt ["tmp.plexdance", "0_a_Album"] ["gone", "Album"] false
        ∈ (cleanup_and_restore gRmtree fsRmtree).2.2 ∧
    contentPresent (cleanup_and_restore gRmtree fsRmtree).2.1 7 = false := by
  refine ⟨by decide, by decide, by decide⟩

/-- C2 amended: the crash-recovery routine does not merely remove
now-empty staging directories — after the restore attempts it removes each
staging directory *recursively*, so nothing at all remains below the
staging directory path, including the content of any staged entry whose
rename back failed. -/
theorem c2_amended_recovery_removes_whole_staging_dir :
    ∀ (g : Globals) (fs : FS) (par td : FsPath),
      g.library_temp_dirs = [(par, td)] → path_exists fs td = true →
      ∀ q, td.isPrefixOf q = true →
        ((cleanup_and_restore g fs).2.1).node q = none := by
  intro g fs par td hg hex q hpre
  unfold cleanup_and_restore
  rw [hg]
  simp only [List.isEmpty_cons, List.foldl_cons, List.foldl_nil]
  rw [if_neg (by simp)]
  unfold cleanupRoot
  rw [if_neg (by simp [hex])]
  exact rmtree_node_none hpre

/-- Witness for the amended C2: in the concrete scenario the stuck entry's
content file is gone after recovery. -/
theorem c2_amended_witness :
    ((cleanup_and_restore gRmtree fsRmtree).2.1).node
        ["tmp.plexdance", "0_a_Album", "t.flac"] = none :=
  c2_amended_recovery_removes_whole_staging_dir gRmtree fsRmtree [] ["tmp.plexdance"]
    rfl (by decide) ["tmp.plexdance", "0_a_Album", "t.flac"] (by decide)

/-- C1, evaluated at the failing input (`cfgSignal`, `fsSignal`, signal
after one move): `file_paths` is replaced by the mapped local paths only
*after* the whole move loop, so when the termination signal arrives
mid-loop the recovery routine's tracking still holds the raw catalog
paths.  Recovery then renames the staged entry to `p/A1/B1` — the raw
input path — and not to `l/A1/B1`, the resolved local path it was moved
from, even though the run's own `restore.log` recorded
`mv l/tmp.plexdance/0_A1_B1 l/A1/B1`.  The untouched entries 2–3 stay in
place and the process exits non-zero, but the "renames … back to that
entry's recorded original local path" part of the claim is violated. -/
theorem c1_signal_recovery_restores_to_catalog_path :
    (runWithSignalAfterMoves cfgSignal fsSignal 1).exitCode = 1 ∧
    FSEvent.renameAttempt ["l", "tmp.plexdance", "0_A1_B1"] ["p", "A1", "B1"] true
        ∈ (runWithSignalAfterMoves cfgSignal fsSignal 1).trace ∧
    FSEvent.wroteRestoreLog ["l", "tmp.plexdance"]
        [(["l", "tmp.plexdance", "0_A1_B1"], ["l", "A1", "B1"]),
         (["l", "tmp.plexdance", "1_A2_B2"], ["l", "A2", "B2"]),
         (["l", "tmp.plexdance", "2_A3_B3"], ["l", "A3", "B3"])]
        ∈ (runWithSignalAfterMoves cfgSignal fsSignal 1).trace ∧
    path_exists (runWithSignalAfterMoves cfgSignal fsSignal 1).fs ["p", "A1", "B1"]
        = true ∧
    (runWithSignalAfterMoves cfgSignal fsSignal 1).fs.node ["l", "A1", "B1"] = none ∧
    (runWithSignalAfterMoves cfgSignal fsSignal 1).fs.node ["l", "A2", "B2"]
        = some FsNode.dir ∧
    (runWithSignalAfterMoves cfgSignal fsSignal 1).fs.node ["l", "A3", "B3"]
        = some FsNode.dir := by
  refine ⟨by decide, by decide, by decide, by decide, by decide, by decide, by decide⟩

theorem isPlanEv_spec {e : FSEvent} (h : isPlanEv e = true) :
    e.isRenameAttempt = false ∧ e.isRestoreLogWrite = false := by
  cases e <;> simp [isPlanEv, FSEvent.isRenameAttempt, FSEvent.isRestoreLogWrite] at *

theorem acquireFresh_ok_evs {fs : FS} {lp td : FsPath} {evs0 : List FSEvent}
    {r : FS × List FSEvent} (h : acquireFresh fs lp td evs0 = Except.ok r) :
    r.2 = evs0 ++ [FSEvent.mkdirsFor td, FSEvent.wroteLock (td ++ ["lock"])] := by
  unfold acquireFresh at h
  split at h
  · cases h
  · split at h
    · cases h
    · cases h; rfl

theorem acquireStagingRoot_ok_evs {fs : FS} {lp td : FsPath} {r : FS × List FSEvent}
    (h : acquireStagingRoot fs lp td = Except.ok r) :
    ∀ e ∈ r.2, isPlanEv e = true := by
  have base : ∀ (evs0 : List FSEvent), (∀ e ∈ evs0, isPlanEv e = true) →
      ∀ (fsx : FS), acquireFresh fsx lp td evs0 = Except.ok r →
      ∀ e ∈ r.2, isPlanEv e = true := by
    intro evs0 h0 fsx hq e hmem
    rw [acquireFresh_ok_evs hq] at hmem
    simp only [List.mem_append, List.mem_cons, List.not_mem_nil, or_false] at hmem
    rcases hmem with hmem | hmem | hmem
    · exact h0 e hmem
    · subst hmem; rfl
    · subst hmem; rfl
  unfold acquireStagingRoot at h
  split at h
  · split at h
    · split at h
      · exact base [FSEvent.removedEmptyDir td]
          (by intro e hmem
              simp only [List.mem_cons, List.not_mem_nil, or_false] at hmem
              subst hmem; rfl) _ h
      · cases h
    · cases h
  · exact base [] (by intro e hmem; cases hmem) _ h

theorem planStep_ok_struct {cfg : RunConfig} {st : PlanState} {i : Nat} {plex : FsPath}
    {st1 : PlanState} (h : planStep cfg st i plex = Except.ok st1) :
    (∀ e ∈ st1.evs, e ∈ st.evs ∨ isPlanEv e = true) ∧
    (∃ ext, st1.dict = st.dict ++ ext) ∧
    (∃ op, st1.ops = st.ops ++ [op] ∧ op.tempPath.dropLast ∈ st1.dict.map Prod.snd) := by
  simp only [planStep] at h
  split at h
  · cases h
  · rename_i fs1 dict1 evs1 tempDir heq
    cases h
    split at heq
    · rename_i e hfind
      cases heq
      refine ⟨fun e he => Or.inl he, ⟨[], (List.append_nil _).symm⟩, ?_⟩
      refine ⟨_, rfl, ?_⟩
      simp only [List.dropLast_concat]
      exact List.mem_map.mpr ⟨e, List.mem_of_find?_eq_some hfind, rfl⟩
    · split at heq
      · cases heq
      · rename_i r hacq
        cases heq
        refine ⟨?_, ⟨_, rfl⟩, ?_⟩
        · intro e he
          rw [List.mem_append] at he
          rcases he with he | he
          · exact Or.inl he
          · exact Or.inr (acquireStagingRoot_ok_evs hacq e he)
        · refine ⟨_, rfl, ?_⟩
          simp only [List.dropLast_concat]
          rw [List.map_append, List.mem_append]
          exact Or.inr (by simp)

theorem planStep_err_evs {cfg : RunConfig} {st : PlanState} {i : Nat} {plex : FsPath}
    {a : AbortInfo} (h : planStep cfg st i plex = Except.error a) :
    a.evs = st.evs := by
  simp only [planStep] at h
  split at h
  · rename_i a2 heq
    cases h
    split at heq
    · cases heq
    · split at heq
      · cases heq; rfl
      · cases heq
  · cases h

theorem planPhaseGo_ok_inv {cfg : RunConfig} :
    ∀ (lines : List FsPath) (st : PlanState) (i : Nat) (st1 : PlanState),
      planPhaseGo cfg st i lines = Except.ok st1 →
      (∀ e ∈ st.evs, isPlanEv e = true) →
      (∀ op ∈ st.ops, op.tempPath.dropLast ∈ st.dict.map Prod.snd) →
      (∀ e ∈ st1.evs, isPlanEv e = true) ∧
      (∀ op ∈ st1.ops, op.tempPath.dropLast ∈ st1.dict.map Prod.snd) := by
  intro lines
  induction lines with
  | nil =>
      intro st i st1 h h1 h2
      cases h
      exact ⟨h1, h2⟩
  | cons p ps ih =>
      intro st i st1 h h1 h2
      simp only [planPhaseGo] at h
      split at h
      · cases h
      · rename_i stm hstep
        obtain ⟨hevs, ⟨ext, hdict⟩, ⟨op, hops, hop⟩⟩ := planStep_ok_struct hstep
        refine ih _ _ _ h ?_ ?_
        · intro e he
          rcases hevs e he with he2 | he2
          · exact h1 e he2
          · exact he2
        · intro op2 hop2
          rw [hops, List.mem_append] at hop2
          rcases hop2 with hop2 | hop2
          · have hmem := h2 op2 hop2
            rw [hdict, List.map_append, List.mem_append]
            exact Or.inl hmem
          · rw [List.mem_singleton] at hop2
            subst hop2
            exact hop

theorem planPhaseGo_err_evs {cfg : RunConfig} :
    ∀ (lines : List FsPath) (st : PlanState) (i : Nat) (a : AbortInfo),
      planPhaseGo cfg st i lines = Except.error a →
      (∀ e ∈ st.evs, isPlanEv e = true) →
      ∀ e ∈ a.evs, isPlanEv e = true := by
  intro lines
  induction lines with
  | nil =>
      intro st i a h h1
      cases h
  | cons p ps ih =>
      intro st i a h h1
      simp only [planPhaseGo] at h
      split at h
      · rename_i a2 heq
        cases h
        rw [planStep_err_evs heq]
        exact h1
      · rename_i stm hstep
        obtain ⟨hevs, -, -⟩ := planStep_ok_struct hstep
        refine ih _ _ _ h ?_
        intro e he
        rcases hevs e he with he2 | he2
        · exact h1 e he2
        · exact he2

theorem planPhase_ok_inv {cfg : RunConfig} {fs0 : FS} {st : PlanState}
    (h : planPhase cfg fs0 = Except.ok st) :
    (∀ e ∈ st.evs, isPlanEv e = true) ∧
    (∀ op ∈ st.ops, op.tempPath.dropLast ∈ st.dict.map Prod.snd) :=
  planPhaseGo_ok_inv _ _ _ _ h (fun e he => absurd he (List.not_mem_nil e))
    (fun op hop => absurd hop (List.not_mem_nil op))

theorem planPhase_err_evs {cfg : RunConfig} {fs0 : FS} {a : AbortInfo}
    (h : planPhase cfg fs0 = Except.error a) :
    ∀ e ∈ a.evs, isPlanEv e = true :=
  planPhaseGo_err_evs _ _ _ _ h (fun e he => absurd he (List.not_mem_nil e))

theorem writeLogs_foldl_evs (ops : List MoveOp) :
    ∀ (dict : List (FsPath × FsPath)) (fs : FS) (acc0 : List FSEvent),
      (dict.foldl
        (fun acc e =>
          (writeFileNode acc.1 (e.2 ++ ["restore.log"]) 0,
           acc.2 ++ [FSEvent.wroteRestoreLog e.2 (restoreLogEntries ops e.2)]))
        (fs, acc0)).2
      = acc0 ++ dict.map fun pr =>
          FSEvent.wroteRestoreLog pr.2 (restoreLogEntries ops pr.2) := by
  intro dict
  induction dict with
  | nil => intro fs acc0; simp
  | cons hd tl ih =>
      intro fs acc0
      rw [List.foldl_cons, ih]
      simp

theorem writeLogsPhase_evs (dict : List (FsPath × FsPath)) (ops : List MoveOp) (fs : FS) :
    (writeLogsPhase dict ops fs).2
      = dict.map fun pr => FSEvent.wroteRestoreLog pr.2 (restoreLogEntries ops pr.2) := by
  unfold writeLogsPhase
  rw [writeLogs_foldl_evs]
  simp

/-- C3: (i) any planning-phase abort exits with code 1, surfaces the
reported recovery-log path, and the events up to the abort contain no
rename of any entry; (ii) when the conventional staging directory exists
and still holds a non-hidden item, staging-root acquisition aborts,
reporting the pre-existing `restore.log` path exactly when that file
exists; (iii) when the leftover staging directory is empty it is silently
removed (`os.rmdir`) and acquisition proceeds with the fresh-directory
path. -/
theorem c3_staging_conflict_refusal :
    (∀ (cfg : RunConfig) (fs0 : FS) (a : AbortInfo),
        planPhase cfg fs0 = Except.error a →
        (run cfg fs0).exitCode = 1 ∧
        (run cfg fs0).reported = a.reportedRestoreLog ∧
        ∀ e ∈ a.evs, e.isRenameAttempt = false) ∧
    (∀ (fs : FS) (lp td : FsPath),
        path_exists fs td = true →
        ((listdir fs td).filter fun f => ¬ startsWithDot f).isEmpty = false →
        acquireStagingRoot fs lp td =
          Except.error (if path_exists fs (td ++ ["restore.log"]) then
              some (td ++ ["restore.log"])
            else none)) ∧
    (∀ (fs fs1 : FS) (lp td : FsPath),
        path_exists fs td = true →
        ((listdir fs td).filter fun f => ¬ startsWithDot f).isEmpty = true →
        osRmdir fs td = some fs1 →
        acquireStagingRoot fs lp td =
          acquireFresh fs1 lp td [FSEvent.removedEmptyDir td]) := by
  refine ⟨?_, ?_, ?_⟩
  · intro cfg fs0 a h
    have hrun : run cfg fs0 = finishAbort cfg a := by
      unfold run
      rw [h]
    rw [hrun]
    refine ⟨rfl, rfl, ?_⟩
    intro e he
    exact (isPlanEv_spec (planPhase_err_evs h e he)).1
  · intro fs lp td hex hne
    unfold acquireStagingRoot
    rw [if_pos hex, if_neg (fun hcontra => Bool.false_ne_true (hne ▸ hcontra))]
  · intro fs fs1 lp td hex hemp hrm
    unfold acquireStagingRoot
    rw [if_pos hex, if_pos hemp, hrm]

/-- Witness for C3: scenario D concretely — leftover staging directory
with one non-hidden file aborts the run with exit code 1, the pre-existing
`restore.log` path reported, zero renames and an unchanged filesystem;
with an empty leftover directory, it is reclaimed and the run proceeds to
completion. -/
theorem c3_witness :
    (run (cfgOne fun _ => false) fsConflict).exitCode = 1 ∧
    (run (cfgOne fun _ => false) fsConflict).reported
        = some ["tmp.plexdance", "restore.log"] ∧
    ((run (cfgOne fun _ => false) fsConflict).trace.all fun e => !e.isRenameAttempt)
        = true ∧
    (run (cfgOne fun _ => false) fsConflict).fs.nodes = fsConflict.nodes ∧
    acquireStagingRoot fsConflict ["lib", "A", "B"] ["tmp.plexdance"]
        = Except.error (some ["tmp.plexdance", "restore.log"]) ∧
    acquireStagingRoot fsEmptyLeftover ["lib", "A", "B"] ["tmp.plexdance"]
        = acquireFresh fsEmptyLeftoverRm ["lib", "A", "B"] ["tmp.plexdance"]
            [FSEvent.removedEmptyDir ["tmp.plexdance"]] ∧
    planSucceeded (cfgOne fun _ => true) fsEmptyLeftover = true ∧
    (run (cfgOne fun _ => true) fsEmptyLeftover).exitCode = 0 ∧
    FSEvent.removedEmptyDir ["tmp.plexdance"]
        ∈ (run (cfgOne fun _ => true) fsEmptyLeftover).trace := by
  refine ⟨(c3_staging_conflict_refusal.1 (cfgOne fun _ => false) fsConflict
      abortConflict (by rfl)).1, by decide, by decide, by decide,
    ?_, ?_, by decide, by decide, by decide⟩
  · exact (c3_staging_conflict_refusal.2.1 fsConflict ["lib", "A", "B"]
      ["tmp.plexdance"] (by decide) (by decide)).trans rfl
  · exact c3_staging_conflict_refusal.2.2 fsEmptyLeftover fsEmptyLeftoverRm
      ["lib", "A", "B"] ["tmp.plexdance"] (by decide) (by decide) rfl

theorem planStateAfter_eq {cfg : RunConfig} {fs0 : FS} {st : PlanState}
    (h : planPhase cfg fs0 = Except.ok st) : planStateAfter cfg fs0 = st := by
  unfold planStateAfter
  rw [h]

/-- C5: once planning succeeds, every staging root's recovery log — an
ordered list of `(stagingPath, originalPath)` restore commands covering
each operation under that root — is written strictly before the first
rename of any entry: the planning events contain no renames and no log
writes, the log-write events (one per root, with the root's full command
list) come next in the trace of any run — normal or interrupted at any
point of the move loop — and everything else follows after them.  Each
planned operation's `(stagingPath, originalPath)` pair is in the log of
its own root. -/
theorem c5_recovery_log_before_renames :
    ∀ (cfg : RunConfig) (fs0 : FS), planSucceeded cfg fs0 = true →
      (∀ e ∈ (planStateAfter cfg fs0).evs,
          e.isRenameAttempt = false ∧ e.isRestoreLogWrite = false) ∧
      ((postPlanLogs (planStateAfter cfg fs0)).2 =
        (planStateAfter cfg fs0).dict.map fun pr =>
          FSEvent.wroteRestoreLog pr.2
            (restoreLogEntries (planStateAfter cfg fs0).ops pr.2)) ∧
      (∀ op ∈ (planStateAfter cfg fs0).ops,
          FSEvent.wroteRestoreLog op.tempPath.dropLast
              (restoreLogEntries (planStateAfter cfg fs0).ops op.tempPath.dropLast)
            ∈ (postPlanLogs (planStateAfter cfg fs0)).2 ∧
          (op.tempPath, op.localPath) ∈
            restoreLogEntries (planStateAfter cfg fs0).ops op.tempPath.dropLast) ∧
      (∀ k, ∃ rest, (runWithSignalAfterMoves cfg fs0 k).trace =
          (planStateAfter cfg fs0).evs ++ (postPlanLogs (planStateAfter cfg fs0)).2
            ++ rest) ∧
      (∃ rest, (run cfg fs0).trace =
          (planStateAfter cfg fs0).evs ++ (postPlanLogs (planStateAfter cfg fs0)).2
            ++ rest) := by
  intro cfg fs0 hps
  unfold planSucceeded at hps
  cases hplan : planPhase cfg fs0 with
  | error a => rw [hplan] at hps; cases hps
  | ok st =>
      rw [planStateAfter_eq hplan]
      obtain ⟨hevs, hops⟩ := planPhase_ok_inv hplan
      refine ⟨fun e he => isPlanEv_spec (hevs e he), writeLogsPhase_evs _ _ _, ?_, ?_, ?_⟩
      · intro op hop
        constructor
        · show _ ∈ (writeLogsPhase st.dict st.ops st.fs).2
          rw [writeLogsPhase_evs]
          have hmem := hops op hop
          rw [List.mem_map] at hmem
          obtain ⟨pr, hpr, hpr2⟩ := hmem
          rw [List.mem_map]
          exact ⟨pr, hpr, by rw [hpr2]⟩
        · unfold restoreLogEntries
          rw [List.mem_map]
          refine ⟨op, ?_, rfl⟩
          rw [List.mem_filter]
          exact ⟨hop, List.isPrefixOf_iff_prefix.mpr (List.dropLast_prefix op.tempPath)⟩
      · intro k
        have hrun : runWithSignalAfterMoves cfg fs0 k = runSignalFromPlan cfg st k := by
          unfold runWithSignalAfterMoves
          rw [hplan]
        rw [hrun]
        exact ⟨(postPlanMovesUpTo st k).2.2 ++
          (cleanup_and_restore ⟨st.dict, st.tempPaths, cfg.lines.map Prod.fst⟩
            (postPlanMovesUpTo st k).1).2.2, List.append_assoc _ _ _⟩
      · have hrun : run cfg fs0 = runFromPlan cfg st := by
          unfold run
          rw [hplan]
        rw [hrun]
        unfold runFromPlan
        by_cases hsucc : ((postPlanMoves st).2.1.filter (· = true)).length = 0
        · rw [if_pos hsucc]
          exact ⟨(postPlanMoves st).2.2 ++
            (cleanup_and_restore ⟨st.dict, st.tempPaths, st.ops.map MoveOp.localPath⟩
              (postPlanMoves st).1).2.2, List.append_assoc _ _ _⟩
        · rw [if_neg hsucc]
          exact ⟨(postPlanMoves st).2.2 ++ (postPlanRestore st).2.2,
            List.append_assoc _ _ _⟩

/-- Witness for C5 at the one-entry happy-path scenario. -/
theorem c5_witness :
    planSucceeded (cfgOne fun _ => true) fsOne = true ∧
    (postPlanLogs (planStateAfter (cfgOne fun _ => true) fsOne)).2 =
      (planStateAfter (cfgOne fun _ => true) fsOne).dict.map fun pr =>
        FSEvent.wroteRestoreLog pr.2
          (restoreLogEntries (planStateAfter (cfgOne fun _ => true) fsOne).ops pr.2) :=
  ⟨by decide, (c5_recovery_log_before_renames (cfgOne fun _ => true) fsOne (by decide)).2.1⟩

theorem pollLoopAux_step {oracle : Nat → Bool} {maxWait fuel elapsed : Nat}
    (h1 : elapsed < maxWait) (h2 : oracle elapsed = false) :
    pollLoopAux oracle maxWait (fuel + 1) elapsed =
      ((pollLoopAux oracle maxWait fuel (elapsed + 5)).1 + 1,
       (pollLoopAux oracle maxWait fuel (elapsed + 5)).2.1,
       (pollLoopAux oracle maxWait fuel (elapsed + 5)).2.2) := by
  simp [pollLoopAux, h1, h2]

theorem pollLoopAux_done {oracle : Nat → Bool} {maxWait fuel elapsed : Nat}
    (h1 : ¬ elapsed < maxWait) :
    pollLoopAux oracle maxWait fuel elapsed = (0, false, elapsed) := by
  cases fuel with
  | zero => rfl
  | succ n => simp [pollLoopAux, h1]

/-- C4: with `--max-wait 10`, the fixed 5-second interval and an oracle
that never reports the entries absent, the polling loop performs exactly
two polls (at elapsed 0 and 5) and stops when `elapsed_time` reaches 10;
the run then logs a timeout (`timedOut`), is not treated as an error
(exit code 0), and unconditionally proceeds to the restore phase — its
trace ends with the restore loop's events and its final filesystem is the
restore loop's. -/
theorem c4_poll_loop_bounded_timeout :
    ∀ (cfg : RunConfig) (fs0 : FS),
      planSucceeded cfg fs0 = true →
      runStaged cfg fs0 ≠ 0 →
      cfg.libraryLocations.isSome = true →
      cfg.maxWait = 10 →
      (∀ t, cfg.oracle t = false) →
      pollLoop cfg.oracle cfg.maxWait 0 = (2, false, 10) ∧
      (run cfg fs0).pollCount = 2 ∧
      (run cfg fs0).timedOut = true ∧
      (run cfg fs0).exitCode = 0 ∧
      (run cfg fs0).trace =
        (planStateAfter cfg fs0).evs ++ (postPlanLogs (planStateAfter cfg fs0)).2
          ++ (postPlanMoves (planStateAfter cfg fs0)).2.2
          ++ (postPlanRestore (planStateAfter cfg fs0)).2.2 ∧
      (run cfg fs0).fs = (postPlanRestore (planStateAfter cfg fs0)).1 := by
  intro cfg fs0 hps hstaged hlib hmax horacle
  have hpoll : pollLoop cfg.oracle cfg.maxWait 0 = (2, false, 10) := by
    rw [hmax]
    show pollLoopAux cfg.oracle 10 11 0 = (2, false, 10)
    rw [show (11 : Nat) = 10 + 1 from rfl,
      pollLoopAux_step (by norm_num) (horacle 0)]
    rw [show (10 : Nat) = 9 + 1 from rfl,
      pollLoopAux_step (by norm_num) (horacle 5)]
    rw [pollLoopAux_done (by norm_num)]
  unfold planSucceeded at hps
  cases hplan : planPhase cfg fs0 with
  | error a => rw [hplan] at hps; cases hps
  | ok st =>
      have hrun : run cfg fs0 = runFromPlan cfg st := by
        unfold run
        rw [hplan]
      have hsucc : ¬ ((postPlanMoves st).2.1.filter (· = true)).length = 0 := by
        unfold runStaged at hstaged
        rw [hplan] at hstaged
        exact hstaged
      cases hlibs : cfg.libraryLocations with
      | none => rw [hlibs] at hlib; cases hlib
      | some locs =>
          rw [planStateAfter_eq hplan, hrun]
          unfold runFromPlan
          rw [if_neg hsucc]
          refine ⟨hpoll, ?_, ?_, rfl, rfl, rfl⟩
          · show (match cfg.libraryLocations with
              | some _ => pollLoop cfg.oracle cfg.maxWait 0
              | none => ((0 : Nat), false, (0 : Nat))).1 = 2
            rw [hlibs, hpoll]
          · show (match cfg.libraryLocations with
              | some _ => pollTimedOut cfg.maxWait
                  (match cfg.libraryLocations with
                   | some _ => pollLoop cfg.oracle cfg.maxWait 0
                   | none => ((0 : Nat), false, (0 : Nat)))
              | none => false) = true
            rw [hlibs, hpoll, hmax]
            rfl

/-- Witness for C4: the one-entry scenario with an always-visible oracle
polls exactly twice and still restores, exiting 0 with a logged
timeout. -/
theorem c4_witness :
    planSucceeded (cfgOne fun _ => false) fsOne = true ∧
    runStaged (cfgOne fun _ => false) fsOne ≠ 0 ∧
    pollLoop (cfgOne fun _ => false).oracle (cfgOne fun _ => false).maxWait 0
        = (2, false, 10) ∧
    (run (cfgOne fun _ => false) fsOne).pollCount = 2 ∧
    (run (cfgOne fun _ => false) fsOne).timedOut = true ∧
    (run (cfgOne fun _ => false) fsOne).exitCode = 0 := by
  refine ⟨by decide, by decide, ?_, ?_, ?_, ?_⟩
  · exact (c4_poll_loop_bounded_timeout (cfgOne fun _ => false) fsOne (by decide)
      (by decide) rfl rfl (fun t => rfl)).1
  · exact (c4_poll_loop_bounded_timeout (cfgOne fun _ => false) fsOne (by decide)
      (by decide) rfl rfl (fun t => rfl)).2.1
  · exact (c4_poll_loop_bounded_timeout (cfgOne fun _ => false) fsOne (by decide)
      (by decide) rfl rfl (fun t => rfl)).2.2.1
  · exact (c4_poll_loop_bounded_timeout (cfgOne fun _ => false) fsOne (by decide)
      (by decide) rfl rfl (fun t => rfl)).2.2.2.1

/-- C9 counterexample: a connectivity failure while looking up an
individual catalog identifier (`fetchItem` raising) is caught by the inner
`except Exception: continue` and treated as the album being *removed*: a
poll whose only id lookup errors reports `(all_removed, still_visible) =
(true, 0)` — the entries are reported absent, not still visible as the
claim states. -/
theorem c9_counterexample_id_error_reported_absent :
    check_albums_removed_from_plex true (fun _ => FetchResult.connError) []
        [(["lib", "A", "B"], [7])] = (true, 0) := by
  decide

theorem pollLoopAux_fuel_inv {oracle : Nat → Bool} {maxWait : Nat} :
    ∀ (f1 f2 elapsed : Nat), maxWait ≤ elapsed + 5 * f1 → maxWait ≤ elapsed + 5 * f2 →
      pollLoopAux oracle maxWait f1 elapsed = pollLoopAux oracle maxWait f2 elapsed := by
  intro f1
  induction f1 with
  | zero =>
      intro f2 elapsed h1 h2
      have hge : ¬ elapsed < maxWait := by omega
      rw [pollLoopAux_done hge, pollLoopAux_done hge]
  | succ n ih =>
      intro f2 elapsed h1 h2
      by_cases hlt : elapsed < maxWait
      · cases f2 with
        | zero => exact absurd hlt (by omega)
        | succ m =>
            cases hor : oracle elapsed with
            | true => simp [pollLoopAux, hlt, hor]
            | false =>
                rw [pollLoopAux_step hlt hor, pollLoopAux_step hlt hor]
                rw [ih m (elapsed + 5) (by omega) (by omega)]
      · rw [pollLoopAux_done hlt, pollLoopAux_done hlt]

theorem pollLoop_retry {oracle : Nat → Bool} {maxWait elapsed : Nat}
    (h1 : elapsed < maxWait) (h2 : oracle elapsed = false) :
    (pollLoop oracle maxWait elapsed).1 = (pollLoop oracle maxWait (elapsed + 5)).1 + 1 := by
  unfold pollLoop
  rw [pollLoopAux_step h1 h2]
  rw [pollLoopAux_fuel_inv (maxWait - elapsed) (maxWait - (elapsed + 5) + 1) (elapsed + 5)
    (by omega) (by omega)]

/-- C9 amended: a *top-level* error contacting the catalog service during
a poll (connecting or listing the section) is treated as
could-not-determine for that poll only — the poll reports all entries as
still visible (`(false, count)`), the run is not aborted, and the loop
polls again at the next interval; but an error while looking up an
individual catalog identifier is indistinguishable from the identifier
having been removed and is counted as absent for that poll. -/
theorem c9_amended_poll_error_handling :
    (∀ (fetch : Nat → FetchResult) (legacy : List FsPath)
        (moved : List (FsPath × List Nat)),
        check_albums_removed_from_plex false fetch legacy moved = (false, moved.length)) ∧
    (∀ (oracle : Nat → Bool) (maxWait elapsed : Nat),
        elapsed < maxWait → oracle elapsed = false →
        (pollLoop oracle maxWait elapsed).1 =
          (pollLoop oracle maxWait (elapsed + 5)).1 + 1) ∧
    (∀ (fetch : Nat → FetchResult) (legacy : List FsPath) (p : FsPath) (id : Nat),
        fetch id = FetchResult.connError →
        check_albums_removed_from_plex true fetch legacy [(p, [id])] = (true, 0)) := by
  refine ⟨fun fetch legacy moved => rfl, fun oracle maxWait elapsed h1 h2 =>
    pollLoop_retry h1 h2, ?_⟩
  intro fetch legacy p id hid
  unfold check_albums_removed_from_plex
  simp [hid]

/-- Witness for the amended C9. -/
theorem c9_witness :
    check_albums_removed_from_plex false (fun _ => FetchResult.found) []
        [(["lib", "A", "B"], [7])] = (false, 1) ∧
    (pollLoop (fun _ => false) 10 0).1 = (pollLoop (fun _ => false) 10 5).1 + 1 ∧
    check_albums_removed_from_plex true (fun _ => FetchResult.connError) []
        [(["lib", "A", "B"], [7])] = (true, 0) := by
  refine ⟨c9_amended_poll_error_handling.1 _ _ _, ?_, ?_⟩
  · exact c9_amended_poll_error_handling.2.1 (fun _ => false) 10 0 (by norm_num) rfl
  · exact c9_amended_poll_error_handling.2.2 (fun _ => FetchResult.connError) []
      ["lib", "A", "B"] 7 rfl

theorem decDigits_lt {n : Nat} (h : n < 10) : decDigits n = [digitChar n] := by
  rw [decDigits]
  exact dif_pos h

theorem decDigits_ge {n : Nat} (h : ¬ n < 10) :
    decDigits n = decDigits (n / 10) ++ [digitChar (n % 10)] := by
  conv_lhs => rw [decDigits]
  exact dif_neg h

theorem digitChar_toNat {d : Nat} (h : d < 10) : (digitChar d).toNat = 48 + d := by
  interval_cases d <;> rfl

theorem digitChar_ne_underscore {d : Nat} (h : d < 10) : digitChar d ≠ '_' := by
  interval_cases d <;> decide

theorem digitChar_ascii {d : Nat} (h : d < 10) : utf8SizeOf (digitChar d) = 1 := by
  interval_cases d <;> decide

theorem digitsVal_append (l : List Char) (c : Char) :
    digitsVal (l ++ [c]) = digitsVal l * 10 + (c.toNat - 48) := by
  unfold digitsVal
  rw [List.foldl_append]
  rfl

theorem digitsVal_decDigits : ∀ n, digitsVal (decDigits n) = n := by
  intro n
  induction n using Nat.strong_induction_on with
  | _ n ih =>
    by_cases h : n < 10
    · rw [decDigits_lt h]
      show 0 * 10 + ((digitChar n).toNat - 48) = n
      rw [digitChar_toNat h]
      omega
    · rw [decDigits_ge h, digitsVal_append,
        ih (n / 10) (Nat.div_lt_self (by omega) (by omega)),
        digitChar_toNat (Nat.mod_lt n (by omega))]
      omega

theorem decDigits_injective {a b : Nat} (h : decDigits a = decDigits b) : a = b := by
  have ha := digitsVal_decDigits a
  rw [h, digitsVal_decDigits b] at ha
  exact ha.symm

theorem underscore_not_mem_decDigits : ∀ n, '_' ∉ decDigits n := by
  intro n
  induction n using Nat.strong_induction_on with
  | _ n ih =>
    by_cases h : n < 10
    · rw [decDigits_lt h]
      intro hmem
      rw [List.mem_singleton] at hmem
      exact digitChar_ne_underscore h hmem.symm
    · rw [decDigits_ge h]
      intro hmem
      rw [List.mem_append] at hmem
      rcases hmem with hmem | hmem
      · exact ih (n / 10) (Nat.div_lt_self (by omega) (by omega)) hmem
      · rw [List.mem_singleton] at hmem
        exact digitChar_ne_underscore (Nat.mod_lt n (by omega)) hmem.symm

theorem decDigits_ascii : ∀ n, ∀ c ∈ decDigits n, utf8SizeOf c = 1 := by
  intro n
  induction n using Nat.strong_induction_on with
  | _ n ih =>
    by_cases h : n < 10
    · rw [decDigits_lt h]
      intro c hc
      rw [List.mem_singleton] at hc
      rw [hc]
      exact digitChar_ascii h
    · rw [decDigits_ge h]
      intro c hc
      rw [List.mem_append] at hc
      rcases hc with hc | hc
      · exact ih (n / 10) (Nat.div_lt_self (by omega) (by omega)) c hc
      · rw [List.mem_singleton] at hc
        rw [hc]
        exact digitChar_ascii (Nat.mod_lt n (by omega))

theorem decDigits_length : ∀ n, (decDigits n).length = Nat.log 10 n + 1 := by
  intro n
  induction n using Nat.strong_induction_on with
  | _ n ih =>
    by_cases h : n < 10
    · rw [decDigits_lt h]
      have hlog : Nat.log 10 n = 0 := Nat.log_eq_zero_iff.mpr (Or.inl h)
      rw [hlog]
      rfl
    · rw [decDigits_ge h, List.length_append,
        ih (n / 10) (Nat.div_lt_self (by omega) (by omega))]
      have hpos : 0 < Nat.log 10 n := Nat.log_pos (by norm_num) (by omega)
      rw [Nat.log_div_base]
      simp
      omega

theorem decReprAux_eq :
    ∀ (fuel n : Nat) (acc : List Char), n < 10 ^ fuel → 1 ≤ fuel →
      decReprAux fuel n acc = decDigits n ++ acc := by
  intro fuel
  induction fuel with
  | zero => intro n acc h1 h2; omega
  | succ f ih =>
      intro n acc h1 _
      by_cases h : n < 10
      · rw [show decReprAux (f + 1) n acc = if n < 10 then digitChar n :: acc
            else decReprAux f (n / 10) (digitChar (n % 10) :: acc) from rfl]
        rw [if_pos h, decDigits_lt h]
        rfl
      · rw [show decReprAux (f + 1) n acc = if n < 10 then digitChar n :: acc
            else decReprAux f (n / 10) (digitChar (n % 10) :: acc) from rfl]
        rw [if_neg h]
        have hf : 1 ≤ f := by
          rcases Nat.eq_zero_or_pos f with hf0 | hf0
          · rw [hf0] at h1
            norm_num at h1
            omega
          · exact hf0
        have hdiv : n / 10 < 10 ^ f := by
          rw [Nat.div_lt_iff_lt_mul (by norm_num)]
          calc n < 10 ^ (f + 1) := h1
          _ = 10 ^ f * 10 := by rw [pow_succ]
        rw [ih (n / 10) (digitChar (n % 10) :: acc) hdiv hf, decDigits_ge h]
        rw [List.append_assoc]
        rfl

theorem decRepr_eq (n : Nat) : decRepr n = decDigits n := by
  unfold decRepr
  rw [decReprAux_eq (n + 1) n []
    (lt_of_lt_of_le (Nat.lt_pow_self (by norm_num) n)
      (Nat.pow_le_pow_right (by norm_num) (by omega))) (by omega)]
  simp

theorem utf8Len_nil : utf8Len [] = 0 := rfl

theorem utf8Len_cons (c : Char) (l : List Char) :
    utf8Len (c :: l) = utf8SizeOf c + utf8Len l := by
  unfold utf8Len
  rw [List.map_cons, List.sum_cons]

theorem utf8Len_append (l1 l2 : List Char) :
    utf8Len (l1 ++ l2) = utf8Len l1 + utf8Len l2 := by
  unfold utf8Len
  rw [List.map_append, List.sum_append]

theorem utf8Len_eq_length_of_ascii :
    ∀ (l : List Char), (∀ c ∈ l, utf8SizeOf c = 1) → utf8Len l = l.length := by
  intro l
  induction l with
  | nil => intro _; rfl
  | cons c cs ih =>
      intro h
      rw [utf8Len_cons, h c (List.mem_cons_self c cs), List.length_cons,
        ih fun c2 hc2 => h c2 (List.mem_cons_of_mem c hc2)]
      omega

theorem utf8SizeOf_pos (c : Char) : 1 ≤ utf8SizeOf c := by
  unfold utf8SizeOf
  split
  · omega
  · split
    · omega
    · split <;> omega

theorem utf8Len_decRepr (n : Nat) : utf8Len (decRepr n) = Nat.log 10 n + 1 := by
  rw [decRepr_eq, utf8Len_eq_length_of_ascii _ (decDigits_ascii n), decDigits_length]

theorem takeUtf8_len_le :
    ∀ (l : List Char) (b : Int), 0 ≤ b → (utf8Len (takeUtf8 l b) : Int) ≤ b := by
  intro l
  induction l with
  | nil => intro b hb; simpa [takeUtf8, utf8Len_nil] using hb
  | cons c cs ih =>
      intro b hb
      rw [show takeUtf8 (c :: cs) b = if (utf8SizeOf c : Int) ≤ b then
          c :: takeUtf8 cs (b - utf8SizeOf c) else [] from rfl]
      split
      · rename_i hc
        rw [utf8Len_cons]
        have := ih (b - utf8SizeOf c) (by omega)
        push_cast
        push_cast at this
        omega
      · simpa [utf8Len_nil] using hb

theorem takeUtf8_prefixOf : ∀ (l : List Char) (b : Int), takeUtf8 l b <+: l := by
  intro l
  induction l with
  | nil => intro b; exact List.prefix_refl []
  | cons c cs ih =>
      intro b
      rw [show takeUtf8 (c :: cs) b = if (utf8SizeOf c : Int) ≤ b then
          c :: takeUtf8 cs (b - utf8SizeOf c) else [] from rfl]
      split
      · exact List.cons_prefix_cons.mpr ⟨rfl, ih _⟩
      · exact List.nil_prefix

theorem pySlice_prefixOf (l : List Char) (n : Int) : pySlice l n <+: l := by
  unfold pySlice
  split
  · exact List.take_prefix _ _
  · exact List.take_prefix _ _

theorem truncate_utf8_safe_len_le {text : List Char} {b : Int} (hb : 0 ≤ b) :
    (utf8Len (truncate_utf8_safe text b) : Int) ≤ b := by
  unfold truncate_utf8_safe
  split
  · rename_i h
    exact h
  · split
    · rename_i h hempty
      have hascii : ∀ c ∈ pySlice (text.filter fun c => c.toNat < 128) b,
          utf8SizeOf c = 1 := by
        intro c hc
        have hmem : c ∈ text.filter fun c => c.toNat < 128 :=
          (pySlice_prefixOf _ _).subset hc
        rw [List.mem_filter] at hmem
        have hlt := hmem.2
        rw [decide_eq_true_eq] at hlt
        unfold utf8SizeOf
        rw [if_pos hlt]
      rw [utf8Len_eq_length_of_ascii _ hascii]
      unfold pySlice
      rw [if_pos hb]
      have hlen : ((text.filter fun c => c.toNat < 128).take b.toNat).length ≤ b.toNat :=
        List.length_take_le _ _
      calc (((text.filter fun c => c.toNat < 128).take b.toNat).length : Int)
          ≤ (b.toNat : Int) := by exact_mod_cast hlen
      _ = b := Int.toNat_of_nonneg hb
    · exact takeUtf8_len_le _ _ hb

theorem truncate_utf8_safe_shape (text : List Char) (b : Int) :
    truncate_utf8_safe text b <+: text ∨
    truncate_utf8_safe text b <+: text.filter (fun c => c.toNat < 128) := by
  unfold truncate_utf8_safe
  split
  · exact Or.inl (List.prefix_refl text)
  · split
    · exact Or.inr (pySlice_prefixOf _ _)
    · exact Or.inl (takeUtf8_prefixOf _ _)

theorem append_underscore_inj :
    ∀ (d1 d2 r1 r2 : List Char), '_' ∉ d1 → '_' ∉ d2 →
      d1 ++ '_' :: r1 = d2 ++ '_' :: r2 → d1 = d2 := by
  intro d1
  induction d1 with
  | nil =>
      intro d2 r1 r2 _ h2 heq
      cases d2 with
      | nil => rfl
      | cons c cs =>
          rw [List.nil_append, List.cons_append] at heq
          injection heq with hc _
          exact absurd (hc ▸ List.mem_cons_self c cs) h2
  | cons c cs ih =>
      intro d2 r1 r2 h1 h2 heq
      cases d2 with
      | nil =>
          rw [List.nil_append, List.cons_append] at heq
          injection heq with hc _
          exact absurd (hc.symm ▸ List.mem_cons_self c cs) h1
      | cons e es =>
          rw [List.cons_append, List.cons_append] at heq
          injection heq with hc hrest
          rw [hc, ih es r1 r2 (fun hm => h1 (List.mem_cons_of_mem c hm))
            (fun hm => h2 (List.mem_cons_of_mem e hm)) hrest]

theorem safe_temp_name_shape (isalnum : Char → Bool) (index : Nat)
    (artist album : List Char) (maxB : Nat) :
    ∃ X, safe_temp_name isalnum index artist album maxB
      = decRepr index ++ '_' :: X := by
  simp only [safe_temp_name]
  split
  · exact ⟨safe_chars isalnum artist ++ '_' :: safe_chars isalnum album,
      by rw [List.append_assoc]; rfl⟩
  · exact ⟨truncate_utf8_safe (safe_chars isalnum artist)
        (Int.fdiv ((maxB : Int) - (utf8Len (decRepr index ++ ['_']) : Int) - 1) 2) ++
      '_' :: truncate_utf8_safe (safe_chars isalnum album)
        (((maxB : Int) - (utf8Len (decRepr index ++ ['_']) : Int) - 1) -
          Int.fdiv ((maxB : Int) - (utf8Len (decRepr index ++ ['_']) : Int) - 1) 2),
      by rw [List.append_assoc]; rfl⟩

/-- C8 amended: for every index whose decimal representation plus the two
separators fits the 255-byte ceiling, the staging name has the form
`{index}_{A}_{B}` where `A` and `B` are character-level prefixes of the
sanitized artist/album (or of their ASCII projections in the degenerate
fallback) — so the name is well-formed text whose truncation never splits
a character — its UTF-8 length never exceeds 255 bytes, and the byte
budget left after the index is split evenly (the two halves differ by at
most one byte and sum to the remainder).  Unconditionally — for *every*
pair of distinct indices — the names differ. -/
theorem c8_staging_name_properties :
    (∀ (isalnum : Char → Bool) (index : Nat) (artist album : List Char),
        utf8Len (decRepr index) + 2 ≤ 255 →
        (∃ A B, safe_temp_name isalnum index artist album 255
              = decRepr index ++ ('_' :: A) ++ ('_' :: B) ∧
            (A <+: safe_chars isalnum artist ∨
              A <+: (safe_chars isalnum artist).filter fun c => c.toNat < 128) ∧
            (B <+: safe_chars isalnum album ∨
              B <+: (safe_chars isalnum album).filter fun c => c.toNat < 128)) ∧
        utf8Len (safe_temp_name isalnum index artist album 255) ≤ 255 ∧
        0 ≤ artistBudget index ∧ artistBudget index ≤ albumBudget index ∧
        albumBudget index ≤ artistBudget index + 1 ∧
        artistBudget index + albumBudget index = remainingBytes index) ∧
    (∀ (isalnum : Char → Bool) (i j : Nat) (a1 b1 a2 b2 : List Char), i ≠ j →
        safe_temp_name isalnum i a1 b1 255 ≠ safe_temp_name isalnum j a2 b2 255) := by
  constructor
  · intro isalnum index artist album hidx
    have hLpart : utf8Len (decRepr index ++ ['_']) = utf8Len (decRepr index) + 1 := by
      rw [utf8Len_append]
      rfl
    have hrem : 0 ≤ remainingBytes index := by
      unfold remainingBytes
      rw [hLpart]
      push_cast
      omega
    have hfd : artistBudget index = remainingBytes index / 2 := by
      unfold artistBudget
      exact Int.fdiv_eq_ediv _ (by norm_num)
    have hdm := Int.ediv_add_emod (remainingBytes index) 2
    have hm0 : 0 ≤ remainingBytes index % 2 := Int.emod_nonneg _ (by norm_num)
    have hm1 : remainingBytes index % 2 < 2 := Int.emod_lt_of_pos _ (by norm_num)
    refine ⟨?_, ?_, ?_, ?_, ?_, ?_⟩
    · simp only [safe_temp_name]
      split
      · exact ⟨safe_chars isalnum artist, safe_chars isalnum album, rfl,
          Or.inl (List.prefix_refl _), Or.inl (List.prefix_refl _)⟩
      · refine ⟨_, _, rfl, ?_, ?_⟩
        · exact truncate_utf8_safe_shape _ _
        · exact truncate_utf8_safe_shape _ _
    · simp only [safe_temp_name]
      split
      · rename_i h
        exact h
      · have hba : Int.fdiv (((255 : Nat) : Int) -
            (utf8Len (decRepr index ++ ['_']) : Int) - 1) 2 = artistBudget index := by
          unfold artistBudget remainingBytes
          norm_num
        have hbb : (((255 : Nat) : Int) - (utf8Len (decRepr index ++ ['_']) : Int) - 1)
            - Int.fdiv (((255 : Nat) : Int) -
              (utf8Len (decRepr index ++ ['_']) : Int) - 1) 2 = albumBudget index := by
          unfold albumBudget artistBudget remainingBytes
          norm_num
        rw [hba]
        rw [hba] at hbb
        rw [hbb]
        have h1 : (utf8Len (truncate_utf8_safe (safe_chars isalnum artist)
            (artistBudget index)) : Int) ≤ artistBudget index :=
          truncate_utf8_safe_len_le (by rw [hfd]; omega)
        have h2 : (utf8Len (truncate_utf8_safe (safe_chars isalnum album)
            (albumBudget index)) : Int) ≤ albumBudget index := by
          refine truncate_utf8_safe_len_le ?_
          unfold albumBudget
          rw [hfd]
          omega
        rw [utf8Len_append, utf8Len_append, utf8Len_cons, utf8Len_cons]
        have hu : utf8SizeOf '_' = 1 := by decide
        rw [hu]
        have hL : utf8Len (decRepr index) + 2 ≤ 255 := hidx
        have hsum : artistBudget index + albumBudget index = remainingBytes index := by
          unfold albumBudget
          omega
        have hremval : remainingBytes index
            = 253 - (utf8Len (decRepr index) : Int) := by
          unfold remainingBytes
          rw [hLpart]
          push_cast
          omega
        omega
    · exact by rw [hfd]; omega
    · unfold albumBudget
      rw [hfd]
      omega
    · unfold albumBudget
      rw [hfd]
      omega
    · unfold albumBudget
      omega
  · intro isalnum i j a1 b1 a2 b2 hij heq
    obtain ⟨X, hX⟩ := safe_temp_name_shape isalnum i a1 b1 255
    obtain ⟨Y, hY⟩ := safe_temp_name_shape isalnum j a2 b2 255
    rw [hX, hY, decRepr_eq, decRepr_eq] at heq
    exact hij (decDigits_injective (append_underscore_inj _ _ _ _
      (underscore_not_mem_decDigits i) (underscore_not_mem_decDigits j) heq))

/-- Witness for the amended C8 at ordinary inputs. -/
theorem c8_witness :
    utf8Len (safe_temp_name Char.isAlphanum 3 "Artist".data "Album".data 255) ≤ 255 ∧
    safe_temp_name Char.isAlphanum 0 "a".data "b".data 255
      ≠ safe_temp_name Char.isAlphanum 1 "a".data "b".data 255 := by
  constructor
  · exact (c8_staging_name_properties.1 Char.isAlphanum 3 "Artist".data "Album".data
      (by decide)).2.1
  · exact c8_staging_name_properties.2 Char.isAlphanum 0 1 "a".data "b".data "a".data
      "b".data (by decide)

/-- C8 counterexample: the byte-length ceiling fails for an index whose
decimal form alone exceeds it.  At index `10 ^ 253` (254 digits),
`remaining_bytes` is negative; Python's negative floor-division and
negative slice make the artist fallback keep one character, and the
resulting name is 257 bytes long — more than 255. -/
theorem c8_counterexample_255_bound_fails :
    255 < utf8Len (safe_temp_name Char.isAlphanum (10 ^ 253) ['a', 'a'] [] 255) := by
  have hL : utf8Len (decRepr (10 ^ 253)) = 254 := by
    have h1 := utf8Len_decRepr (10 ^ 253)
    have h2 : Nat.log 10 (10 ^ 253) = 253 := Nat.log_pow (by norm_num) 253
    rw [h2] at h1
    exact h1
  have hsa : safe_chars Char.isAlphanum ['a', 'a'] = ['a', 'a'] := by decide
  have hsb : safe_chars Char.isAlphanum ([] : List Char) = [] := rfl
  have hdef : safe_temp_name Char.isAlphanum (10 ^ 253) ['a', 'a'] [] 255
      = if utf8Len (decRepr (10 ^ 253) ++ '_' :: safe_chars Char.isAlphanum ['a', 'a']
            ++ '_' :: safe_chars Char.isAlphanum []) ≤ 255 then
          decRepr (10 ^ 253) ++ '_' :: safe_chars Char.isAlphanum ['a', 'a']
            ++ '_' :: safe_chars Char.isAlphanum []
        else
          decRepr (10 ^ 253) ++ '_' ::
              truncate_utf8_safe (safe_chars Char.isAlphanum ['a', 'a'])
                (Int.fdiv (((255 : Nat) : Int)
                  - (utf8Len (decRepr (10 ^ 253) ++ ['_']) : Int) - 1) 2)
            ++ '_' ::
              truncate_utf8_safe (safe_chars Char.isAlphanum [])
                ((((255 : Nat) : Int)
                  - (utf8Len (decRepr (10 ^ 253) ++ ['_']) : Int) - 1)
                  - Int.fdiv (((255 : Nat) : Int)
                    - (utf8Len (decRepr (10 ^ 253) ++ ['_']) : Int) - 1) 2) := rfl
  rw [hsa, hsb] at hdef
  have hbase : utf8Len (decRepr (10 ^ 253) ++ '_' :: ['a', 'a']
      ++ '_' :: ([] : List Char)) = 258 := by
    have e2 := utf8Len_append (decRepr (10 ^ 253)) ('_' :: ['a', 'a'])
    rw [hL, show utf8Len ('_' :: ['a', 'a']) = 3 from by decide] at e2
    have e1 := utf8Len_append (decRepr (10 ^ 253) ++ '_' :: ['a', 'a'])
      ('_' :: ([] : List Char))
    rw [e2, show utf8Len ('_' :: ([] : List Char)) = 1 from by decide] at e1
    omega
  have hcond : ¬ (utf8Len (decRepr (10 ^ 253) ++ '_' :: ['a', 'a']
      ++ '_' :: ([] : List Char)) ≤ 255) := by
    intro hc
    rw [hbase] at hc
    omega
  rw [if_neg hcond] at hdef
  have hpart : utf8Len (decRepr (10 ^ 253) ++ ['_']) = 255 := by
    have h1 := utf8Len_append (decRepr (10 ^ 253)) ['_']
    rw [hL, show utf8Len ['_'] = 1 from by decide] at h1
    omega
  rw [hpart] at hdef
  rw [show Int.fdiv (((255 : Nat) : Int) - ((255 : Nat) : Int) - 1) 2 = -1 from by
    decide] at hdef
  rw [show (((255 : Nat) : Int) - ((255 : Nat) : Int) - 1) - (-1 : Int) = 0 from by
    decide] at hdef
  rw [show truncate_utf8_safe ['a', 'a'] (-1) = ['a'] from by decide] at hdef
  rw [show truncate_utf8_safe ([] : List Char) 0 = [] from by decide] at hdef
  have hlen : utf8Len (decRepr (10 ^ 253) ++ '_' :: ['a']
      ++ '_' :: ([] : List Char)) = 257 := by
    have e2 := utf8Len_append (decRepr (10 ^ 253)) ('_' :: ['a'])
    rw [hL, show utf8Len ('_' :: ['a']) = 2 from by decide] at e2
    have e1 := utf8Len_append (decRepr (10 ^ 253) ++ '_' :: ['a'])
      ('_' :: ([] : List Char))
    rw [e2, show utf8Len ('_' :: ([] : List Char)) = 1 from by decide] at e1
    omega
  have hfin : utf8Len (safe_temp_name Char.isAlphanum (10 ^ 253) ['a', 'a'] [] 255)
      = 257 := (congrArg utf8Len hdef).trans hlen
  omega
